import Mathlib

/-!
# Verification development for `MiscellaneousTests`

The development has three parts, one per source file: the 3D vector benchmark
`Test05.cpp` (namespace `Test05`), the matrix mixin `MatrixBase.h` (namespace
`MatrixBase`) and the network of stops `TanNetwork.cpp` (namespace
`TanNetwork`).  The definitions of the three parts come first, the theorems
follow in the same order.

## Part 1: `Source/Benchmark/Test05.cpp`, the 3D vector benchmark

The C++ file compares an eager vector type `Vector3D<Naive, S>` with an
expression-template type `Vector3D<Expr, S>`, each over two storage backends
(`StackAllocatedVector3D`, `HeapAllocatedVector3D`).

Conventions of the embedding.

* The component type `float` is a type parameter `α`; the only arithmetic the
  source performs on components is `+`, so the development asks for `[Add α]`
  and nothing more unless a statement says otherwise.
* A C++ template parameter `StorageKind` is a type `S` with an instance of the
  class `StorageKind`, which lists what the templates use of it: the
  three-argument constructor and the member array `m_Data`.
* `arr[i]` with a run-time index `i : size_t` is the unchecked subscript
  `subscript`: inside the array it yields the element, outside it has no
  defined result.  Subscripts with the literal indices `0`, `1`, `2` are total
  and are written as applications of the array `Fin 3 → α`.
* A reference `const E&` held by an `AddOp` is the referenced expression
  itself; a referenced leaf vector carries the address of the object next to
  its contents, so that two occurrences of one object can be told from two
  objects with equal contents.
-/

namespace Test05

/-! ### Outcomes of a component read -/

/-- Reasons for which a read yields no component value.
`UndefinedBehaviour` is what the C++ source has when it reads outside an
array: no exception is raised and no result is defined.  `IndexOutOfRange` is
the defined failure that the specification names for such a read; no function
of the source produces it. -/
inductive Fault where
  | IndexOutOfRange
  | UndefinedBehaviour
  deriving DecidableEq, Repr

/-- The array `float[3]` holding `x`, `y`, `z` in this order. -/
def array3 {α : Type} (x y z : α) : Fin 3 → α
  | ⟨0, _⟩ => x
  | ⟨1, _⟩ => y
  | ⟨_ + 2, _⟩ => z

/-- The C++ subscript `arr[i]` on a three-element array with a run-time index:
no bounds check is made, the element is returned when `i < 3`, and the read is
outside the array otherwise. -/
def subscript {α : Type} (arr : Fin 3 → α) (i : Nat) : Except Fault α :=
  if h : i < 3 then .ok (arr ⟨i, h⟩) else .error .UndefinedBehaviour

/-! ### Storage backends -/

/-- The enum `Test` selecting the specialisation of `Vector3D`. -/
inductive Test where
  | Naive
  | Expr
  deriving DecidableEq, Repr

/-- The class `StackAllocatedVector3D`: three components stored in the object.
The anonymous union lets the same three floats be read as `m_x`, `m_y`, `m_z`
or as `m_Data[0..2]`. -/
structure StackAllocatedVector3D (α : Type) where
  m_x : α
  m_y : α
  m_z : α
  deriving DecidableEq, Repr

namespace StackAllocatedVector3D

variable {α : Type}

/-- Constructor `StackAllocatedVector3D(float x, float y, float z)`. -/
def ctor (x y z : α) : StackAllocatedVector3D α :=
  { m_x := x, m_y := y, m_z := z }

/-- Accessor `x()`. -/
def x (v : StackAllocatedVector3D α) : α := v.m_x

/-- Accessor `y()`. -/
def y (v : StackAllocatedVector3D α) : α := v.m_y

/-- Accessor `z()`. -/
def z (v : StackAllocatedVector3D α) : α := v.m_z

/-- The union member `float m_Data[3]`, which aliases `m_x`, `m_y`, `m_z`. -/
def m_Data (v : StackAllocatedVector3D α) : Fin 3 → α :=
  array3 v.m_x v.m_y v.m_z

end StackAllocatedVector3D

/-- The class `HeapAllocatedVector3D` seen through its owning pointer: `m_Data`
is the three-element block that the constructor allocates.  (Allocation and
release of the block are modelled separately, in `Tracked`.) -/
structure HeapAllocatedVector3D (α : Type) where
  m_Data : Fin 3 → α

namespace HeapAllocatedVector3D

variable {α : Type}

/-- Constructor `HeapAllocatedVector3D(float x, float y, float z)`:
`m_Data = new float[3]` followed by the three stores. -/
def ctor (x y z : α) : HeapAllocatedVector3D α :=
  { m_Data := array3 x y z }

/-- Accessor `x()`, that is `m_Data[0]`. -/
def x (v : HeapAllocatedVector3D α) : α := v.m_Data 0

/-- Accessor `y()`, that is `m_Data[1]`. -/
def y (v : HeapAllocatedVector3D α) : α := v.m_Data 1

/-- Accessor `z()`, that is `m_Data[2]`. -/
def z (v : HeapAllocatedVector3D α) : α := v.m_Data 2

end HeapAllocatedVector3D

/-- What the templates `Vector3D<Naive, S>` and `Vector3D<Expr, S>` use of
their parameter `S`: the constructor `S(x, y, z)`, the protected member
`m_Data`, and the fact that the constructor stores its arguments there. -/
class StorageKind (α : outParam Type) (S : Type) where
  ctor : α → α → α → S
  m_Data : S → Fin 3 → α
  m_Data_ctor : ∀ x y z, m_Data (ctor x y z) = array3 x y z

instance instStorageKindStack (α : Type) : StorageKind α (StackAllocatedVector3D α) where
  ctor := StackAllocatedVector3D.ctor
  m_Data := StackAllocatedVector3D.m_Data
  m_Data_ctor := fun _ _ _ => rfl

instance instStorageKindHeap (α : Type) : StorageKind α (HeapAllocatedVector3D α) where
  ctor := HeapAllocatedVector3D.ctor
  m_Data := HeapAllocatedVector3D.m_Data
  m_Data_ctor := fun _ _ _ => rfl

/-! ### The two specialisations of `Vector3D` -/

/-- The class template `Vector3D<test, StorageKind>`: both specialisations add
no data member to their `StorageKind` base. -/
structure Vector3D (t : Test) (S : Type) where
  base : S

namespace Vector3D

variable {α S : Type} [StorageKind α S]

/-- Constructor `Vector3D(float x, float y, float z) : StorageKind(x, y, z)`,
present in both specialisations. -/
def ctor (t : Test) (x y z : α) : Vector3D t S :=
  { base := StorageKind.ctor x y z }

/-- The inherited member array `m_Data`. -/
def m_Data {t : Test} (v : Vector3D t S) : Fin 3 → α :=
  StorageKind.m_Data v.base

/-- Member `Vector3D<Expr, S>::operator[](size_t i)`, `return this->m_Data[i]`. -/
def operatorIndex (v : Vector3D Test.Expr S) (i : Nat) : Except Fault α :=
  subscript v.m_Data i

end Vector3D

/-- The eager `operator+` of `Vector3D<Naive, S>`: a new vector built from the
three sums `a.m_Data[k] + b.m_Data[k]`. -/
def Naive.operatorPlus {α S : Type} [StorageKind α S] [Add α]
    (a b : Vector3D Test.Naive S) : Vector3D Test.Naive S :=
  Vector3D.ctor Test.Naive (a.m_Data 0 + b.m_Data 0) (a.m_Data 1 + b.m_Data 1)
    (a.m_Data 2 + b.m_Data 2)

/-- The expression types `Vector3DExpr<E>`: `E` is either a leaf
`Vector3D<Expr, S>`, referenced at address `addr`, or an `AddOp<EL, ER>`
holding references to two expressions. -/
inductive Vector3DExpr (S : Type) where
  | leaf (addr : Nat) (v : Vector3D Test.Expr S)
  | AddOp (el er : Vector3DExpr S)

namespace Vector3DExpr

variable {α S : Type} [StorageKind α S] [Add α]

/-- Member `Vector3DExpr<E>::operator[]`, which forwards to `Derived()[i]`:
the leaf reads `m_Data[i]`, `AddOp` returns `el[i] + er[i]`. -/
def operatorIndex : Vector3DExpr S → Nat → Except Fault α
  | leaf _ v, i => v.operatorIndex i
  | AddOp el er, i => do
      let x ← operatorIndex el i
      let y ← operatorIndex er i
      pure (x + y)

end Vector3DExpr

/-- The lazy `operator+(const Vector3DExpr<EL>&, const Vector3DExpr<ER>&)`:
it returns the node `AddOp<EL, ER>(el, er)` and computes nothing. -/
def Expr.operatorPlus {S : Type} (el er : Vector3DExpr S) : Vector3DExpr S :=
  Vector3DExpr.AddOp el er

/-- Converting constructor `Vector3D<Expr, S>(const Vector3DExpr<E>& e)`,
`StorageKind(e[0], e[1], e[2])`. -/
def Vector3D.ofExpr {α S : Type} [StorageKind α S] [Add α]
    (e : Vector3DExpr S) : Except Fault (Vector3D Test.Expr S) := do
  let x ← e.operatorIndex 0
  let y ← e.operatorIndex 1
  let z ← e.operatorIndex 2
  pure (Vector3D.ctor Test.Expr x y z)

/-! ### Instrumented evaluation

The same functions, returning next to their result the list of events that the
evaluation goes through: one `read` per execution of `this->m_Data[i]` in a
leaf, one `construct` per execution of a `StorageKind(x, y, z)` constructor.
The order in which C++ evaluates the two operands of `+` and the three
arguments of the constructor is unspecified; the lists below use left to
right, and every statement made about them is a statement about counts. -/

/-- Events observed during an evaluation. -/
inductive Event where
  | read (addr : Nat) (i : Nat)
  | construct
  deriving DecidableEq, Repr

namespace Vector3DExpr

variable {α S : Type} [StorageKind α S] [Add α]

/-- Instrumented `operator[]`: the leaf at `addr` logs its read of component
`i`; `AddOp` logs what its operands log and adds the two floats. -/
def operatorIndexT : Vector3DExpr S → Nat → Except Fault (α × List Event)
  | leaf addr v, i => do
      let x ← v.operatorIndex i
      pure (x, [Event.read addr i])
  | AddOp el er, i => do
      let (x, tx) ← operatorIndexT el i
      let (y, ty) ← operatorIndexT er i
      pure (x + y, tx ++ ty)

/-- Addresses of the leaf vectors referenced by an expression, one entry per
occurrence, from left to right. -/
def leaves : Vector3DExpr S → List Nat
  | leaf addr _ => [addr]
  | AddOp el er => leaves el ++ leaves er

end Vector3DExpr

/-- Instrumented converting constructor: the three reads `e[0]`, `e[1]`,
`e[2]`, then the construction of the destination storage. -/
def Vector3D.ofExprT {α S : Type} [StorageKind α S] [Add α]
    (e : Vector3DExpr S) : Except Fault (Vector3D Test.Expr S × List Event) := do
  let (x, tx) ← e.operatorIndexT 0
  let (y, ty) ← e.operatorIndexT 1
  let (z, tz) ← e.operatorIndexT 2
  pure (Vector3D.ctor Test.Expr x y z, tx ++ ty ++ tz ++ [Event.construct])

/-! ### Chains of additions -/

/-- The eager chain `a1 + a2 + ... + an`, left associated as C++ parses it,
over `Vector3D<Naive, S>` operands built from the given component triples. -/
def Naive.chain {α S : Type} [StorageKind α S] [Add α]
    (a1 : α × α × α) (rest : List (α × α × α)) : Vector3D Test.Naive S :=
  rest.foldl
    (fun acc t => Naive.operatorPlus acc (Vector3D.ctor Test.Naive t.1 t.2.1 t.2.2))
    (Vector3D.ctor Test.Naive a1.1 a1.2.1 a1.2.2)

/-- The lazy chain `a1 + a2 + ... + an`, left associated, over leaves
`Vector3D<Expr, S>` built from the given component triples; the leaf of the
`k`-th operand is given the address `base + k`. -/
def Expr.chainFrom {α S : Type} [StorageKind α S]
    (base : Nat) (acc : Vector3DExpr S) : List (α × α × α) → Vector3DExpr S
  | [] => acc
  | t :: rest =>
      Expr.chainFrom (base + 1)
        (Expr.operatorPlus acc
          (Vector3DExpr.leaf base (Vector3D.ctor Test.Expr t.1 t.2.1 t.2.2)))
        rest

/-- The lazy chain over leaves at the addresses `0, 1, ..., n - 1`. -/
def Expr.chain {α S : Type} [StorageKind α S]
    (a1 : α × α × α) (rest : List (α × α × α)) : Vector3DExpr S :=
  Expr.chainFrom 1
    (Vector3DExpr.leaf 0 (Vector3D.ctor Test.Expr a1.1 a1.2.1 a1.2.2)) rest

/-- The expression `a + b + c + a + b + c` of the scenarios "Expr 1" and
"Expr 2", parsed as `((((a + b) + c) + a) + b) + c`. -/
def Expr.sixChain {S : Type} (a b c : Vector3DExpr S) : Vector3DExpr S :=
  Expr.operatorPlus (Expr.operatorPlus (Expr.operatorPlus
    (Expr.operatorPlus (Expr.operatorPlus a b) c) a) b) c

/-- The expression `(a + b) + (c + a) + (b + c)` of the scenario "Expr 3",
parsed as `((a + b) + (c + a)) + (b + c)`. -/
def Expr.threePairs {S : Type} (a b c : Vector3DExpr S) : Vector3DExpr S :=
  Expr.operatorPlus
    (Expr.operatorPlus (Expr.operatorPlus a b) (Expr.operatorPlus c a))
    (Expr.operatorPlus b c)

/-- The eager expression `na + nb + nc + na + nb + nc` of the scenarios
"Naive". -/
def Naive.sixChain {α S : Type} [StorageKind α S] [Add α]
    (a b c : Vector3D Test.Naive S) : Vector3D Test.Naive S :=
  Naive.operatorPlus (Naive.operatorPlus (Naive.operatorPlus
    (Naive.operatorPlus (Naive.operatorPlus a b) c) a) b) c

/-! ### Allocation tracking for `HeapAllocatedVector3D`

The owning pointer `float* m_Data`, `new float[3]` and `delete[]` are followed
in a state that records what an allocation-tracking backend would see.  A block
is named by the rank of the `new float[3]` that created it, so that a block
keeps its name even when the allocator reuses its storage.  A pointer is
`none` when it is `nullptr`.  Objects are named by their rank of creation and
stay in the table after their destructor has run.

Returning a vector by value is the construction of the returned object: the
`return Vector3D<Naive, StorageKind>(...)` of `operator+` initialises its
result in place, and no copy constructor runs. -/

namespace Tracked

/-- The allocator and the `HeapAllocatedVector3D` objects of a run. -/
structure State (α : Type) where
  /-- Number of blocks handed out so far, the name of the next block. -/
  next : Nat
  /-- Contents of the blocks that are allocated and not released. -/
  mem : Nat → Option (Fin 3 → α)
  /-- The blocks given to `delete[]`, in the order of the calls. -/
  released : List Nat
  /-- The member `m_Data` of every object created so far. -/
  objs : List (Option Nat)

/-- The state before anything is constructed. -/
def State.init {α : Type} : State α :=
  { next := 0, mem := fun _ => none, released := [], objs := [] }

variable {α : Type}

/-- Constructor `HeapAllocatedVector3D(x, y, z)` of a new object:
`m_Data = new float[3]`, then the three stores. -/
def ctor (s : State α) (x y z : α) : State α :=
  { next := s.next + 1
    mem := Function.update s.mem s.next (some (array3 x y z))
    released := s.released
    objs := s.objs ++ [some s.next] }

/-- The call `delete[] p`: the block is handed back, whatever its status. -/
def deleteArray (s : State α) (p : Nat) : State α :=
  { s with mem := Function.update s.mem p none, released := s.released ++ [p] }

/-- Destructor `~HeapAllocatedVector3D()` of object `k`:
`if (m_Data) delete[] m_Data; m_Data = nullptr;`.  There is no result when
`k` names no object. -/
def dtor (s : State α) (k : Nat) : Option (State α) :=
  match s.objs[k]? with
  | none => none
  | some ptr =>
      let s1 := match ptr with
        | some p => deleteArray s p
        | none => s
      some { s1 with objs := s1.objs.set k none }

/-- The read `v.m_Data[i]` on object `k`, for a literal index: defined when the
pointer of the object is not null and its block is allocated. -/
def m_Data (s : State α) (k : Nat) (i : Fin 3) : Option α :=
  match s.objs[k]? with
  | some (some p) => (s.mem p).map (fun blk => blk i)
  | _ => none

/-- The eager `operator+` on the objects `a` and `b`: six reads, then the
construction of the returned vector as a new object. -/
def operatorPlus [Add α] (s : State α) (a b : Nat) : Option (State α) := do
  let a0 ← m_Data s a 0
  let b0 ← m_Data s b 0
  let a1 ← m_Data s a 1
  let b1 ← m_Data s b 1
  let a2 ← m_Data s a 2
  let b2 ← m_Data s b 2
  pure (ctor s (a0 + b0) (a1 + b1) (a2 + b2))

/-- The copy constructor that the compiler generates for
`HeapAllocatedVector3D`, which declares none: a new object whose `m_Data` is
the pointer of object `k`.  No operation of `Op` runs it. -/
def copyCtor (s : State α) (k : Nat) : Option (State α) :=
  match s.objs[k]? with
  | none => none
  | some ptr => some { s with objs := s.objs ++ [ptr] }

/-- The operations on `Vector3D<Naive, HeapAllocatedVector3D>` that the
benchmark performs: construction from three floats, `operator+` and
destruction. -/
inductive Op (α : Type) where
  | construct (x y z : α)
  | plus (a b : Nat)
  | destroy (k : Nat)

/-- One operation. -/
def step [Add α] (s : State α) : Op α → Option (State α)
  | Op.construct x y z => some (ctor s x y z)
  | Op.plus a b => operatorPlus s a b
  | Op.destroy k => dtor s k

/-- A sequence of operations, from left to right. -/
def run [Add α] : List (Op α) → State α → Option (State α)
  | [], s => some s
  | op :: ops, s => (step s op).bind (run ops)

/-- The ownership discipline of the reachable states: every non-null pointer
names a block that was handed out, is allocated and was never released, no two
objects hold the same block, and the log of releases has no repetition. -/
structure Inv (s : State α) : Prop where
  ptr_lt : ∀ (k p : Nat), s.objs[k]? = some (some p) → p < s.next
  ptr_live : ∀ (k p : Nat), s.objs[k]? = some (some p) → ∃ blk, s.mem p = some blk
  ptr_fresh : ∀ (k p : Nat), s.objs[k]? = some (some p) → p ∉ s.released
  ptr_inj : ∀ (j k p : Nat), s.objs[j]? = some (some p) → s.objs[k]? = some (some p) → j = k
  released_nodup : s.released.Nodup
  released_lt : ∀ p ∈ s.released, p < s.next

/-- Block `p` is gone: it was released, it is not allocated, and no object
points to it. -/
structure Gone (s : State α) (p : Nat) : Prop where
  mem_released : p ∈ s.released
  lt_next : p < s.next
  not_live : s.mem p = none
  unreachable : ∀ j : Nat, s.objs[j]? ≠ some (some p)

end Tracked

/-! ### Instrumented eager evaluation

The constructor is what materialises a vector.  Its instrumented form records
the object it constructs, and the instrumented `operator+` is the source line
`return Vector3D<Naive, StorageKind>(...)` with that constructor: whatever is
counted below is a run of the constructor.  As in `Tracked`, the returned
vector is the object that the constructor builds, so the value of a whole
chain is the object constructed by its last call of `operator+`. -/

/-- Instrumented constructor `Vector3D(float x, float y, float z)`: the object
it constructs joins the list of the vectors constructed so far. -/
def Vector3D.ctorT {α S : Type} [StorageKind α S] (t : Test) (x y z : α)
    (made : List (Vector3D t S)) : Vector3D t S × List (Vector3D t S) :=
  let v : Vector3D t S := Vector3D.ctor t x y z
  (v, made ++ [v])

/-- Instrumented eager `operator+`: the three sums `a.m_Data[k] + b.m_Data[k]`
and one run of the constructor, whose object is returned. -/
def Naive.operatorPlusT {α S : Type} [StorageKind α S] [Add α]
    (a b : Vector3D Test.Naive S) (made : List (Vector3D Test.Naive S)) :
    Vector3D Test.Naive S × List (Vector3D Test.Naive S) :=
  Vector3D.ctorT Test.Naive (a.m_Data 0 + b.m_Data 0) (a.m_Data 1 + b.m_Data 1)
    (a.m_Data 2 + b.m_Data 2) made

/-- The eager chain `a1 + a2 + ... + an`, left associated, with the list of the
vectors constructed during its evaluation, in the order of their construction.
The operands themselves exist before the expression is evaluated. -/
def Naive.chainT {α S : Type} [StorageKind α S] [Add α]
    (a1 : α × α × α) (rest : List (α × α × α)) :
    Vector3D Test.Naive S × List (Vector3D Test.Naive S) :=
  rest.foldl
    (fun acc t =>
      Naive.operatorPlusT acc.1 (Vector3D.ctor Test.Naive t.1 t.2.1 t.2.2) acc.2)
    (Vector3D.ctor Test.Naive a1.1 a1.2.1 a1.2.2, [])

/-- The eager chain `acc + b1 + b2 + ...` on the objects of the
allocation-tracking model: every `operator+` is `Tracked.operatorPlus`, whose
result is a new object, and this object is the left operand of the next call.
The chain returns the state it ends in and the object that holds its value. -/
def Tracked.chain {α : Type} [Add α] :
    Tracked.State α → Nat → List Nat → Option (Tracked.State α × Nat)
  | s, acc, [] => some (s, acc)
  | s, acc, b :: rest =>
      (Tracked.operatorPlus s acc b).bind (fun s1 => Tracked.chain s1 s.objs.length rest)

/-! ### Auxiliary notions used in the statements -/

/-- The value of component `i` of an expression, for an index inside the
array: what `operator[]` computes when no read leaves the array (see
`Vector3DExpr.operatorIndex_of_lt`). -/
def Vector3DExpr.component {α S : Type} [StorageKind α S] [Add α] :
    Vector3DExpr S → Fin 3 → α
  | Vector3DExpr.leaf _ v, i => v.m_Data i
  | Vector3DExpr.AddOp el er, i => component el i + component er i

/-- The intermediate vectors of an eager chain: the vectors constructed during
its evaluation before the final result, that is all of them but the last, which
is the result itself. -/
def Naive.intermediates {S : Type} (made : List (Vector3D Test.Naive S)) :
    List (Vector3D Test.Naive S) :=
  made.dropLast

/-- Whether an event is a component read on the leaf at address `addr`. -/
def Event.isReadOf (addr : Nat) : Event → Bool
  | Event.read a _ => decide (a = addr)
  | Event.construct => false

/-- Number of component reads, at any index, made on the leaf at `addr`. -/
def readCount (addr : Nat) (t : List Event) : Nat :=
  t.countP (Event.isReadOf addr)

end Test05

/-! ## Part 2: `Source/Math/Matrix/MatrixBase.h`, row operations and Gauss elimination

`MatrixBase<Derived, T>` is a mixin: it reads and writes the cells of the
matrix through `Derived()(i, j)` and asks `Line()` and `Column()` for its
size.  The header `MatrixExpression.h` and the classes that derive from
`MatrixBase` are not among the sources, so the derived matrix is a parameter:
a type `D` with an instance of `MatrixExpression`.

A member function that modifies the matrix and may throw is a function from
the matrix before the call to the outcome of the call (the returned value or
the exception) together with the matrix after it. -/

namespace MatrixBase

/-- The exceptions thrown in `MatrixBase.h`, with their message. -/
inductive Exception where
  | out_of_range (what : String)
  | exception (what : String)
  deriving DecidableEq, Repr

/-- What `MatrixBase<Derived, T>` uses of `Derived`: the dimensions `Line()` and
`Column()` and the cell reference `Derived()(i, j)`, read (`get`) and assigned
(`set`).  Assigning a cell changes that cell and nothing else. -/
class MatrixExpression (D : Type) (T : outParam Type) where
  Line : D → Nat
  Column : D → Nat
  get : D → Nat → Nat → T
  set : D → Nat → Nat → T → D
  Line_set : ∀ d i j v, Line (set d i j v) = Line d
  Column_set : ∀ d i j v, Column (set d i j v) = Column d
  get_set : ∀ d i j v r c, get (set d i j v) r c = if r = i ∧ c = j then v else get d r c

/-- A matrix stored as a table of cells, the plainest class that `MatrixBase`
can be mixed into. -/
structure Grid (T : Type) where
  Line : Nat
  Column : Nat
  cell : Nat → Nat → T

instance instMatrixExpressionGrid (T : Type) : MatrixExpression (Grid T) T where
  Line := Grid.Line
  Column := Grid.Column
  get := Grid.cell
  set := fun g i j v =>
    { g with cell := fun r c => if r = i ∧ c = j then v else g.cell r c }
  Line_set := fun _ _ _ _ => rfl
  Column_set := fun _ _ _ _ => rfl
  get_set := fun _ _ _ _ _ _ => rfl

/-- The matrix with the given rows, padded with `0` outside them. -/
def Grid.ofRows {T : Type} [Zero T] (L C : Nat) (rows : List (List T)) : Grid T :=
  { Line := L, Column := C, cell := fun r c => (rows.getD r []).getD c 0 }

open MatrixExpression

section RowOperations

variable {D T : Type} [MatrixExpression D T]

/-- `SwapLines(i, j)`: the range check, then the exchange of the two rows,
column by column. -/
def SwapLines (d : D) (i j : Nat) : Except Exception Unit × D :=
  if i ≥ Line d ∨ j ≥ Line d then
    (.error (.out_of_range "Index out of range."), d)
  else
    (.ok (), (List.range (Column d)).foldl
      (fun m k =>
        let temp := get m i k
        let m1 := set m i k (get m j k)
        set m1 j k temp) d)

/-- `ScaleLine(idx, scalefactor)`: the range check, then
`Derived()(idx, j) *= scalefactor` for every column. -/
def ScaleLine [Mul T] (d : D) (idx : Nat) (scalefactor : T) : Except Exception Unit × D :=
  if idx ≥ Line d then
    (.error (.out_of_range "Index out of range."), d)
  else
    (.ok (), (List.range (Column d)).foldl
      (fun m j => set m idx j (get m idx j * scalefactor)) d)

/-- `CombineLines(idx1, factor1, idx2, factor2)`: the range check, then
`Derived()(idx1, j) = factor1 * Derived()(idx1, j) + factor2 * Derived()(idx2, j)`
for every column. -/
def CombineLines [Mul T] [Add T] (d : D) (idx1 : Nat) (factor1 : T) (idx2 : Nat)
    (factor2 : T) : Except Exception Unit × D :=
  if idx1 ≥ Line d ∨ idx2 ≥ Line d then
    (.error (.out_of_range "Index out of range."), d)
  else
    (.ok (), (List.range (Column d)).foldl
      (fun m j => set m idx1 j (factor1 * get m idx1 j + factor2 * get m idx2 j)) d)

end RowOperations

section Gauss

variable {D T : Type} [MatrixExpression D T] [LinearOrderedField T]

/-- The pivot search of `GaussElimination` in column `j`: `max` and `maxpos`
start at `0`, and the rows `linepivot, ..., L - 1` are scanned for an entry
of larger absolute value. -/
def findPivot (d : D) (j linepivot L : Nat) : T × Nat :=
  (List.range' linepivot (L - linepivot)).foldl
    (fun (acc : T × Nat) i => if |get d i j| > acc.1 then (|get d i j|, i) else acc)
    (0, 0)

/-- The elimination loop of `GaussElimination` for column `j`:
`CombineLines(i, T(1), linepivot, -Derived()(i, j))` for every row
`i != linepivot`.  An exception ends the loop. -/
def eliminate (d : D) (j linepivot L : Nat) : Except Exception Unit × D :=
  (List.range L).foldl
    (fun (acc : Except Exception Unit × D) i =>
      match acc with
      | (.error e, m) => (.error e, m)
      | (.ok _, m) =>
          if i ≠ linepivot then CombineLines m i 1 linepivot (-(get m i j))
          else (.ok (), m))
    (.ok (), d)

/-- The local variables of `GaussElimination` between two columns. -/
structure GaussState (D T : Type) where
  d : D
  linepivot : Nat
  permutations : Nat
  pseudodet : T

/-- The local variables at the entry of the loop: `linepivot = 0`,
`permutations = 0`, `pseudodet(1)`. -/
def GaussState.start (d : D) : GaussState D T :=
  { d := d, linepivot := 0, permutations := 0, pseudodet := 1 }

/-- Where `GaussElimination` stands after a column: in the loop, or out of the
function with a returned value or an exception. -/
inductive Flow (D T : Type) where
  | next (st : GaussState D T)
  | done (r : Except Exception T) (d : D)

/-- The body of the loop over the columns of `GaussElimination`. -/
def gaussColumn (L : Nat) (st : GaussState D T) (j : Nat) : Flow D T :=
  let maxpos := (findPivot st.d j st.linepivot L).2
  if get st.d maxpos j = 0 then
    Flow.done (.ok 0) st.d
  else
    let pseudodet := st.pseudodet * get st.d maxpos j
    match ScaleLine st.d maxpos (1 / get st.d maxpos j) with
    | (.error e, d1) => Flow.done (.error e) d1
    | (.ok _, d1) =>
        let swapped : (Except Exception Unit × D) × Nat :=
          if maxpos ≠ j then (SwapLines d1 maxpos st.linepivot, st.permutations + 1)
          else ((.ok (), d1), st.permutations)
        match swapped with
        | ((.error e, d2), _) => Flow.done (.error e) d2
        | ((.ok _, d2), permutations) =>
            match eliminate d2 j st.linepivot L with
            | (.error e, d3) => Flow.done (.error e) d3
            | (.ok _, d3) =>
                Flow.next
                  { d := d3, linepivot := st.linepivot + 1,
                    permutations := permutations, pseudodet := pseudodet }

/-- The loop of `GaussElimination` over the columns `0, ..., min(L, C) - 1`. -/
def gaussLoop (L : Nat) (cols : List Nat) (start : Flow D T) : Flow D T :=
  cols.foldl
    (fun flow j =>
      match flow with
      | Flow.next st => gaussColumn L st j
      | Flow.done r d => Flow.done r d)
    start

/-- `GaussElimination()`: the returned value or exception, and the matrix
after the call. -/
def GaussElimination (d : D) : Except Exception T × D :=
  let L := Line d
  let C := Column d
  match gaussLoop L (List.range (min L C)) (Flow.next (GaussState.start d)) with
  | Flow.done r m => (r, m)
  | Flow.next st =>
      (.ok ((if st.permutations % 2 = 0 then 1 else -1) * st.pseudodet), st.d)

/-- `IsSquareMatrix()`. -/
def IsSquareMatrix {D T : Type} [MatrixExpression D T] (d : D) : Bool :=
  Line d == Column d

/-- `Det() const`: the check, then `GaussElimination` on the copy `temp`; the
matrix itself is not touched. -/
def Det (d : D) : Except Exception T :=
  if !IsSquareMatrix d then
    .error (.exception "This is not a square matrix.")
  else
    let temp := d
    (GaussElimination temp).1

/-- The square matrix of order `n` read in the cells `(i, j)` with `i, j < n`. -/
def toMatrix (n : Nat) (d : D) : Matrix (Fin n) (Fin n) T :=
  Matrix.of fun r c => get d r.val c.val

/-- The state of `GaussElimination` on a matrix of order `n` when it enters
the column `j`: `linepivot` is `j`, the columns before `j` are those of the
identity, and `detM` is the determinant of the current matrix multiplied by
the pivots met so far and by the sign of the row exchanges. -/
structure GaussInv (n : Nat) (detM : T) (j : Nat) (st : GaussState D T) : Prop where
  line_eq : Line st.d = n
  column_eq : Column st.d = n
  linepivot_eq : st.linepivot = j
  unit_columns : ∀ r c, r < n → c < j → get st.d r c = if r = c then 1 else 0
  det_eq : detM = (-1) ^ st.permutations * st.pseudodet * (toMatrix n st.d).det

end Gauss

end MatrixBase

/-! ## Part 3: `Source/CodinGame/TanNetwork.cpp`, the network of stops

The type `float` of the coordinates and of the weights is a parameter `F`.
The `std::unordered_map<std::string, size_t>` is the function that `find`
computes: `none` when the key is absent.  A `Node` is its index `m_NodeIdx`
(the reference to the network is the network at hand), a `NeighboorList` is
its pair `m_Begin`, `m_End`.  A subscript on a `std::vector` makes no range
check: outside the vector it has no defined result (`none`). -/

namespace TanNetwork

/-- The class `NodeData`. -/
structure NodeData (F : Type) where
  m_Id : String
  m_Name : String
  m_Latitude : F
  m_Longitude : F
  m_Type : Int

/-- Accessor `Id()`. -/
def NodeData.Id {F : Type} (nd : NodeData F) : String := nd.m_Id

/-- The struct `Network::Edge`. -/
structure Edge (F : Type) where
  Node1Idx : Nat
  Node2Idx : Nat
  Weight : F

/-- Constructor `Edge(size_t node1, size_t node2)`, with `Weight(0.0f)`. -/
def Edge.ctor {F : Type} [Zero F] (node1 node2 : Nat) : Edge F :=
  { Node1Idx := node1, Node2Idx := node2, Weight := 0 }

/-- The data members of the class `Network`. -/
structure Network (F : Type) where
  m_NodeData : List (NodeData F)
  m_IdNodeIndex : String → Option Nat
  m_Edges : List (Edge F)
  m_EdgesNodeLUT : List Nat

/-- What a call can end with, other than a value: the `std::exception` thrown
by the source, or a read outside a vector. -/
inductive Failure where
  | exception (what : String)
  | UndefinedBehaviour
  deriving DecidableEq, Repr

/-- The class `Network::NeighboorList`, without its reference to the network. -/
structure NeighboorList where
  m_Begin : Nat
  m_End : Nat
  deriving DecidableEq, Repr

namespace Network

variable {F : Type}

/-- A default-constructed `Network`. -/
def fresh : Network F :=
  { m_NodeData := [], m_IdNodeIndex := fun _ => none, m_Edges := [], m_EdgesNodeLUT := [] }

/-- `CreateNode(args...)`: `emplace_back` of the node, then
`m_IdNodeIndex[node.Id()] = m_NodeData.size() - 1`; the node is returned. -/
def CreateNode (net : Network F) (node : NodeData F) : NodeData F × Network F :=
  let nodes := net.m_NodeData ++ [node]
  (node,
   { net with
      m_NodeData := nodes
      m_IdNodeIndex := Function.update net.m_IdNodeIndex node.Id (some (nodes.length - 1)) })

/-- `GetNodeId(id)`: the index stored for `id`, or the exception
"Node not found !". -/
def GetNodeId (net : Network F) (id : String) : Except Failure Nat :=
  match net.m_IdNodeIndex id with
  | none => .error (.exception "Node not found !")
  | some idx => .ok idx

/-- `GetNodeData(size_t idx)`, `return m_NodeData[idx]`. -/
def GetNodeData (net : Network F) (idx : Nat) : Except Failure (NodeData F) :=
  match net.m_NodeData[idx]? with
  | none => .error .UndefinedBehaviour
  | some nd => .ok nd

/-- `GetNodeData(const std::string& id)`,
`return m_NodeData[this->GetNodeId(id)]`. -/
def GetNodeDataById (net : Network F) (id : String) : Except Failure (NodeData F) := do
  let idx ← net.GetNodeId id
  net.GetNodeData idx

/-- The loop of `ImportNodeData`, `m_IdNodeIndex[nodeData.Id()] = idx++`. -/
def indexNodes : List (NodeData F) → Nat → (String → Option Nat) → (String → Option Nat)
  | [], _, index => index
  | nd :: rest, idx, index => indexNodes rest (idx + 1) (Function.update index nd.Id (some idx))

/-- `ImportNodeData(nodeDataSet)`. -/
def ImportNodeData (net : Network F) (nodeDataSet : List (NodeData F)) : Network F :=
  { net with
      m_NodeData := nodeDataSet
      m_IdNodeIndex := indexNodes nodeDataSet 0 net.m_IdNodeIndex }

/-- The comparison given to `std::sort` in `GroupEdges`, read as the order in
which the sorted edges follow one another: by `Node1Idx`. -/
def edgeLE (e1 e2 : Edge F) : Prop := e1.Node1Idx ≤ e2.Node1Idx

instance edgeLE_decidable : DecidableRel (edgeLE : Edge F → Edge F → Prop) :=
  fun e1 e2 => Nat.decLe e1.Node1Idx e2.Node1Idx

instance edgeLE_isTotal : IsTotal (Edge F) edgeLE :=
  ⟨fun a b => Nat.le_total a.Node1Idx b.Node1Idx⟩

instance edgeLE_isTrans : IsTrans (Edge F) edgeLE :=
  ⟨fun _ _ _ h1 h2 => Nat.le_trans h1 h2⟩

/-- `v.back()` on the lookup table. -/
def back (lut : List Nat) : Nat := lut.getLastD 0

/-- `count` times `m_EdgesNodeLUT.push_back(m_EdgesNodeLUT.back())`. -/
def pushBackCopies : Nat → List Nat → List Nat
  | 0, lut => lut
  | count + 1, lut => pushBackCopies count (lut ++ [back lut])

/-- The loop `while (++it != m_Edges.end())` of `GroupEdges`: `pos` is
`std::distance(m_Edges.begin(), it)` for the first of the edges still to
visit.  The inner `for (k = lastVal; k < it->Node1Idx - 1; ++k)` makes
`it->Node1Idx - 1 - lastVal` turns: the edges are sorted, so a `Node1Idx`
that differs from `lastVal` is at least `1` and the subtraction on `size_t`
does not wrap. -/
def lutLoop (lastVal pos : Nat) : List (Edge F) → List Nat → List Nat
  | [], lut => lut
  | e :: rest, lut =>
      if e.Node1Idx = lastVal then
        lutLoop lastVal (pos + 1) rest lut
      else
        lutLoop e.Node1Idx (pos + 1) rest
          (pushBackCopies (e.Node1Idx - 1 - lastVal) lut ++ [pos])

/-- The last loop of `GroupEdges`:
`while (m_EdgesNodeLUT.size() < size) push_back(back())`. -/
def fillLUT (size : Nat) (lut : List Nat) : List Nat :=
  pushBackCopies (size - lut.length) lut

/-- `GroupEdges()`.  `std::sort` is given the order of `Node1Idx`; the order
in which it leaves edges with the same `Node1Idx` is not specified, and the
insertion sort stands for one of the possible results. -/
def GroupEdges (net : Network F) : Network F :=
  match net.m_Edges with
  | [] => net
  | _ :: _ =>
      match net.m_Edges.insertionSort edgeLE with
      | [] => net
      | first :: rest =>
          let lut := lutLoop first.Node1Idx 1 rest (net.m_EdgesNodeLUT ++ [0])
          let lut := lut ++ [(first :: rest).length]
          { net with
              m_Edges := first :: rest
              m_EdgesNodeLUT := fillLUT (net.m_NodeData.length + 1) lut }

/-- The loop of `ImportEdges` over `m_Edges`:
`edge.Weight = F(node1, node2)`, the weight function being given the network
as it is at that moment and the two node indices. -/
def weighEdges (net : Network F) (W : Network F → Nat → Nat → F) :
    List (Edge F) → List (Edge F) → List (Edge F)
  | done, [] => done
  | done, e :: todo =>
      weighEdges net W
        (done ++ [{ e with
          Weight := W { net with m_Edges := done ++ e :: todo } e.Node1Idx e.Node2Idx }])
        todo

/-- `ImportEdges(edgesSet, F)`. -/
def ImportEdges (net : Network F) (edgesSet : List (Edge F))
    (W : Network F → Nat → Nat → F) : Network F :=
  GroupEdges { net with m_Edges := weighEdges net W [] edgesSet }

/-- `Node::Neighboors()` for the node `Nodes(idx)`: the two reads
`m_EdgesNodeLUT[m_NodeIdx]` and `m_EdgesNodeLUT[m_NodeIdx + 1]`. -/
def Neighboors (net : Network F) (idx : Nat) : Option NeighboorList := do
  let b ← net.m_EdgesNodeLUT[idx]?
  let e ← net.m_EdgesNodeLUT[idx + 1]?
  pure { m_Begin := b, m_End := e }

/-- `NeighboorList::Size()`, `m_End - m_Begin` (on `size_t`; the two agree
when `m_Begin <= m_End`, which holds for the tables that `GroupEdges` builds). -/
def Size (nl : NeighboorList) : Nat := nl.m_End - nl.m_Begin

/-- `NeighboorList::operator[](idx)`: the index of the node
`m_Edges[m_Begin + idx].Node2Idx`. -/
def neighboor (net : Network F) (nl : NeighboorList) (idx : Nat) : Option Nat :=
  (net.m_Edges[nl.m_Begin + idx]?).map (fun e => e.Node2Idx)

/-- The id index is consistent: every id it holds is mapped to the index of a
node that carries this id. -/
def Consistent (net : Network F) : Prop :=
  ∀ id idx, net.m_IdNodeIndex id = some idx →
    ∃ nd, net.m_NodeData[idx]? = some nd ∧ nd.Id = id

/-- The shape of the lookup table while `GroupEdges` builds it: it is not
empty, starts with `0`, is non-decreasing, and its last entry bounds the
others. -/
structure LutInv (lut : List Nat) : Prop where
  ne_nil : lut ≠ []
  head_zero : lut.head? = some 0
  sorted : lut.Pairwise (fun a b => a ≤ b)
  le_back : ∀ x ∈ lut, x ≤ back lut

end Network

end TanNetwork

/-! ## Theorems of part 1 (`Test05.cpp`) -/

namespace Test05

/-! ### Basic facts -/

section Basic

variable {α S : Type}

@[simp] theorem array3_zero (x y z : α) : array3 x y z 0 = x := rfl

@[simp] theorem array3_one (x y z : α) : array3 x y z 1 = y := rfl

@[simp] theorem array3_two (x y z : α) : array3 x y z 2 = z := rfl

theorem subscript_of_lt (arr : Fin 3 → α) {i : Nat} (h : i < 3) :
    subscript arr i = .ok (arr ⟨i, h⟩) := by
  simp [subscript, h]

theorem subscript_of_ge (arr : Fin 3 → α) {i : Nat} (h : 3 ≤ i) :
    subscript arr i = .error Fault.UndefinedBehaviour := by
  have : ¬ i < 3 := by omega
  simp [subscript, this]

theorem Vector3D.operatorIndex_ctor [StorageKind α S] (x y z : α) (i : Nat) :
    (Vector3D.ctor Test.Expr x y z : Vector3D Test.Expr S).operatorIndex i
      = subscript (array3 x y z) i := by
  simp [Vector3D.operatorIndex, Vector3D.m_Data, Vector3D.ctor, StorageKind.m_Data_ctor]

theorem Vector3D.m_Data_ctor [StorageKind α S] (t : Test) (x y z : α) :
    (Vector3D.ctor t x y z : Vector3D t S).m_Data = array3 x y z := by
  simp [Vector3D.m_Data, Vector3D.ctor, StorageKind.m_Data_ctor]

theorem Naive.operatorPlus_m_Data [StorageKind α S] [Add α]
    (a b : Vector3D Test.Naive S) (i : Fin 3) :
    (Naive.operatorPlus a b).m_Data i = a.m_Data i + b.m_Data i := by
  unfold Naive.operatorPlus
  rw [Vector3D.m_Data_ctor]
  fin_cases i <;> rfl

theorem Vector3DExpr.operatorIndex_of_lt [StorageKind α S] [Add α]
    (e : Vector3DExpr S) {i : Nat} (h : i < 3) :
    e.operatorIndex i = .ok (e.component ⟨i, h⟩) := by
  induction e with
  | leaf addr v =>
      simp [Vector3DExpr.operatorIndex, Vector3D.operatorIndex, Vector3DExpr.component,
        subscript_of_lt _ h]
  | AddOp el er ihl ihr =>
      simp [Vector3DExpr.operatorIndex, Vector3DExpr.component, ihl, ihr, bind, Except.bind,
        pure, Except.pure]

theorem Vector3DExpr.operatorIndex_of_ge [StorageKind α S] [Add α]
    (e : Vector3DExpr S) {i : Nat} (h : 3 ≤ i) :
    e.operatorIndex i = .error Fault.UndefinedBehaviour := by
  induction e with
  | leaf addr v =>
      simp [Vector3DExpr.operatorIndex, Vector3D.operatorIndex, subscript_of_ge _ h]
  | AddOp el er ihl ihr =>
      simp [Vector3DExpr.operatorIndex, ihl, bind, Except.bind]

theorem Vector3DExpr.operatorIndexT_of_lt [StorageKind α S] [Add α]
    (e : Vector3DExpr S) {i : Nat} (h : i < 3) :
    e.operatorIndexT i
      = .ok (e.component ⟨i, h⟩, e.leaves.map (fun a => Event.read a i)) := by
  induction e with
  | leaf addr v =>
      simp [Vector3DExpr.operatorIndexT, Vector3D.operatorIndex, Vector3DExpr.component,
        Vector3DExpr.leaves, subscript_of_lt _ h, bind, Except.bind, pure, Except.pure]
  | AddOp el er ihl ihr =>
      simp [Vector3DExpr.operatorIndexT, Vector3DExpr.component, Vector3DExpr.leaves, ihl, ihr,
        bind, Except.bind, pure, Except.pure]

theorem Vector3D.ofExpr_eq [StorageKind α S] [Add α] (e : Vector3DExpr S) :
    Vector3D.ofExpr e
      = .ok (Vector3D.ctor Test.Expr (e.component 0) (e.component 1) (e.component 2)) := by
  have h0 := e.operatorIndex_of_lt (show 0 < 3 by omega)
  have h1 := e.operatorIndex_of_lt (show 1 < 3 by omega)
  have h2 := e.operatorIndex_of_lt (show 2 < 3 by omega)
  simp only [Vector3D.ofExpr, h0, h1, h2, bind, Except.bind, pure, Except.pure]
  rfl

theorem Vector3D.ofExprT_eq [StorageKind α S] [Add α] (e : Vector3DExpr S) :
    Vector3D.ofExprT e
      = .ok (Vector3D.ctor Test.Expr (e.component 0) (e.component 1) (e.component 2),
          e.leaves.map (fun a => Event.read a 0) ++ e.leaves.map (fun a => Event.read a 1)
            ++ e.leaves.map (fun a => Event.read a 2) ++ [Event.construct]) := by
  have h0 := e.operatorIndexT_of_lt (show 0 < 3 by omega)
  have h1 := e.operatorIndexT_of_lt (show 1 < 3 by omega)
  have h2 := e.operatorIndexT_of_lt (show 2 < 3 by omega)
  simp only [Vector3D.ofExprT, h0, h1, h2, bind, Except.bind, pure, Except.pure]
  rfl

theorem Expr.chainFrom_component [StorageKind α S] [Add α] (rest : List (α × α × α)) :
    ∀ (base : Nat) (acc : Vector3DExpr S) (accN : Vector3D Test.Naive S),
      (∀ i, accN.m_Data i = acc.component i) →
      ∀ i, (rest.foldl
              (fun v t => Naive.operatorPlus v (Vector3D.ctor Test.Naive t.1 t.2.1 t.2.2))
              accN).m_Data i
            = (Expr.chainFrom base acc rest).component i := by
  induction rest with
  | nil => intro base acc accN h i; simpa [Expr.chainFrom] using h i
  | cons t rest ih =>
      intro base acc accN h i
      simp only [List.foldl_cons, Expr.chainFrom]
      apply ih
      intro j
      rw [Naive.operatorPlus_m_Data, h j]
      simp [Expr.operatorPlus, Vector3DExpr.component, Vector3D.m_Data_ctor]

theorem Naive.chain_m_Data [StorageKind α S] [Add α]
    (a1 : α × α × α) (rest : List (α × α × α)) (i : Fin 3) :
    (Naive.chain a1 rest : Vector3D Test.Naive S).m_Data i
      = (Expr.chain a1 rest : Vector3DExpr S).component i := by
  unfold Naive.chain Expr.chain
  apply Expr.chainFrom_component
  intro j
  simp [Vector3DExpr.component, Vector3D.m_Data_ctor]

theorem count_read_map (l : List Nat) (a i j : Nat) :
    (l.map (fun b => Event.read b j)).count (Event.read a i)
      = if i = j then l.count a else 0 := by
  induction l with
  | nil => simp
  | cons b l ih =>
      simp only [List.map_cons, List.count_cons, ih]
      by_cases hij : i = j
      · subst hij
        by_cases hb : b = a
        · simp [hb]
        · have : ¬ (Event.read b i = Event.read a i) := by
            intro h; injection h with h1 _; exact hb h1
          simp [hb, this]
      · have : ¬ (Event.read b j = Event.read a i) := by
          intro h; injection h with _ h2; exact hij h2.symm
        simp [hij, this]

theorem readCount_map (l : List Nat) (a j : Nat) :
    readCount a (l.map (fun b => Event.read b j)) = l.count a := by
  induction l with
  | nil => simp [readCount]
  | cons b l ih =>
      simp only [readCount] at ih
      simp only [readCount, List.map_cons, List.countP_cons, ih, List.count_cons]
      by_cases hb : b = a <;> simp [Event.isReadOf, hb]

theorem readCount_append (a : Nat) (t u : List Event) :
    readCount a (t ++ u) = readCount a t + readCount a u := by
  simp [readCount, List.countP_append]

theorem count_construct_map (l : List Nat) (j : Nat) :
    (l.map (fun b => Event.read b j)).count Event.construct = 0 := by
  induction l with
  | nil => simp
  | cons b l ih => simp [List.count_cons, ih]

theorem fixed_inputs_generic [StorageKind α S] [Add α] (lit : ℕ → α)
    (hexact : ∀ m n : ℕ, m + n ≤ 36 → lit m + lit n = lit (m + n)) :
    Vector3D.ofExpr (Expr.sixChain
        (Vector3DExpr.leaf 0 (Vector3D.ctor Test.Expr (lit 1) (lit 2) (lit 3)))
        (Vector3DExpr.leaf 1 (Vector3D.ctor Test.Expr (lit 4) (lit 5) (lit 6)))
        (Vector3DExpr.leaf 2 (Vector3D.ctor Test.Expr (lit 7) (lit 8) (lit 9))) :
          Vector3DExpr S)
      = .ok (Vector3D.ctor Test.Expr (lit 24) (lit 30) (lit 36)) ∧
    Vector3D.ofExpr (Expr.threePairs
        (Vector3DExpr.leaf 0 (Vector3D.ctor Test.Expr (lit 1) (lit 2) (lit 3)))
        (Vector3DExpr.leaf 1 (Vector3D.ctor Test.Expr (lit 4) (lit 5) (lit 6)))
        (Vector3DExpr.leaf 2 (Vector3D.ctor Test.Expr (lit 7) (lit 8) (lit 9))) :
          Vector3DExpr S)
      = .ok (Vector3D.ctor Test.Expr (lit 24) (lit 30) (lit 36)) := by
  have h : ∀ m n k : ℕ, m + n = k → k ≤ 36 → lit m + lit n = lit k := by
    intro m n k hk hle
    subst hk
    exact hexact m n hle
  constructor
  · rw [Vector3D.ofExpr_eq]
    simp only [Expr.sixChain, Expr.operatorPlus, Vector3DExpr.component, Vector3D.m_Data_ctor,
      array3_zero, array3_one, array3_two]
    rw [h 1 4 5 rfl (by omega), h 5 7 12 rfl (by omega), h 12 1 13 rfl (by omega),
      h 13 4 17 rfl (by omega), h 17 7 24 rfl (by omega),
      h 2 5 7 rfl (by omega), h 7 8 15 rfl (by omega), h 15 2 17 rfl (by omega),
      h 17 5 22 rfl (by omega), h 22 8 30 rfl (by omega),
      h 3 6 9 rfl (by omega), h 9 9 18 rfl (by omega), h 18 3 21 rfl (by omega),
      h 21 6 27 rfl (by omega), h 27 9 36 rfl (by omega)]
  · rw [Vector3D.ofExpr_eq]
    simp only [Expr.threePairs, Expr.operatorPlus, Vector3DExpr.component, Vector3D.m_Data_ctor,
      array3_zero, array3_one, array3_two]
    rw [h 1 4 5 rfl (by omega), h 7 1 8 rfl (by omega), h 5 8 13 rfl (by omega),
      h 4 7 11 rfl (by omega), h 13 11 24 rfl (by omega),
      h 2 5 7 rfl (by omega), h 8 2 10 rfl (by omega), h 7 10 17 rfl (by omega),
      h 17 13 30 rfl (by omega),
      h 3 6 9 rfl (by omega), h 9 3 12 rfl (by omega), h 9 12 21 rfl (by omega),
      h 6 9 15 rfl (by omega), h 21 15 36 rfl (by omega)]

theorem Naive.chainT_fold [StorageKind α S] [Add α] (rest : List (α × α × α)) :
    ∀ (v : Vector3D Test.Naive S) (made : List (Vector3D Test.Naive S)),
      rest.foldl
          (fun acc t =>
            Naive.operatorPlusT acc.1 (Vector3D.ctor Test.Naive t.1 t.2.1 t.2.2) acc.2)
          (v, made)
        = (rest.foldl
            (fun acc t => Naive.operatorPlus acc (Vector3D.ctor Test.Naive t.1 t.2.1 t.2.2)) v,
           made ++ (List.range rest.length).map (fun k =>
            (rest.take (k + 1)).foldl
              (fun acc t =>
                Naive.operatorPlus acc (Vector3D.ctor Test.Naive t.1 t.2.1 t.2.2)) v)) := by
  induction rest with
  | nil => intro v made; simp
  | cons t rest ih =>
      intro v made
      have h := ih (Naive.operatorPlus v (Vector3D.ctor Test.Naive t.1 t.2.1 t.2.2))
        (made ++ [Naive.operatorPlus v (Vector3D.ctor Test.Naive t.1 t.2.1 t.2.2)])
      simp only [List.foldl_cons, List.length_cons]
      refine h.trans ?_
      rw [List.range_succ_eq_map, List.map_cons, List.map_map]
      simp [Function.comp_def, List.append_assoc]

end Basic

/-! ### Facts about the allocation-tracking model -/

namespace Tracked

variable {α : Type}

theorem objs_ctor (s : State α) (x y z : α) (k : Nat) (q : Option Nat) :
    (ctor s x y z).objs[k]? = some q ↔
      s.objs[k]? = some q ∨ (k = s.objs.length ∧ q = some s.next) := by
  simp only [ctor, List.getElem?_append]
  by_cases hk : k < s.objs.length
  · simp only [hk, if_true]
    constructor
    · intro h; exact Or.inl h
    · rintro (h | ⟨h, _⟩)
      · exact h
      · omega
  · simp only [hk, if_false]
    have hnone : s.objs[k]? = none := List.getElem?_eq_none (by omega)
    rw [hnone]
    by_cases hk2 : k = s.objs.length
    · subst hk2
      simp [eq_comm]
    · have : 1 ≤ k - s.objs.length := by omega
      have h1 : ([some s.next] : List (Option Nat))[k - s.objs.length]? = none :=
        List.getElem?_eq_none (by simpa using this)
      rw [h1]
      simp [hk2]

theorem inv_init : Inv (State.init : State α) := by
  constructor <;> simp [State.init]

theorem inv_ctor {s : State α} (h : Inv s) (x y z : α) : Inv (ctor s x y z) := by
  constructor
  · intro k p hk
    rcases (objs_ctor s x y z k (some p)).1 hk with h1 | ⟨_, h2⟩
    · have := h.ptr_lt k p h1
      show p < s.next + 1
      omega
    · have hp : p = s.next := by injection h2
      show p < s.next + 1
      omega
  · intro k p hk
    show ∃ blk, Function.update s.mem s.next (some (array3 x y z)) p = some blk
    rcases (objs_ctor s x y z k (some p)).1 hk with h1 | ⟨_, h2⟩
    · have hlt := h.ptr_lt k p h1
      have hne : p ≠ s.next := by omega
      rw [Function.update_noteq hne]
      exact h.ptr_live k p h1
    · have hp : p = s.next := by injection h2
      subst hp
      exact ⟨_, Function.update_same _ _ _⟩
  · intro k p hk
    show p ∉ s.released
    rcases (objs_ctor s x y z k (some p)).1 hk with h1 | ⟨_, h2⟩
    · exact h.ptr_fresh k p h1
    · have hp : p = s.next := by injection h2
      intro hmem
      have := h.released_lt p hmem
      omega
  · intro j k p hj hk
    rcases (objs_ctor s x y z j (some p)).1 hj with h1 | ⟨h1, h2⟩
    · rcases (objs_ctor s x y z k (some p)).1 hk with h3 | ⟨_, h4⟩
      · exact h.ptr_inj j k p h1 h3
      · have hp : p = s.next := by injection h4
        have := h.ptr_lt j p h1
        omega
    · rcases (objs_ctor s x y z k (some p)).1 hk with h3 | ⟨h3, _⟩
      · have hp : p = s.next := by injection h2
        have := h.ptr_lt k p h3
        omega
      · omega
  · exact h.released_nodup
  · intro p hp
    have := h.released_lt p hp
    show p < s.next + 1
    omega

theorem operatorPlus_eq_some [Add α] {s s1 : State α} {a b : Nat}
    (h : operatorPlus s a b = some s1) :
    ∃ a0 b0 a1 b1 a2 b2,
      m_Data s a 0 = some a0 ∧ m_Data s b 0 = some b0 ∧
      m_Data s a 1 = some a1 ∧ m_Data s b 1 = some b1 ∧
      m_Data s a 2 = some a2 ∧ m_Data s b 2 = some b2 ∧
      s1 = ctor s (a0 + b0) (a1 + b1) (a2 + b2) := by
  simp only [operatorPlus, bind, pure, Option.bind_eq_some] at h
  obtain ⟨a0, h0, b0, h1, a1, h2, b1, h3, a2, h4, b2, h5, h6⟩ := h
  refine ⟨a0, b0, a1, b1, a2, b2, h0, h1, h2, h3, h4, h5, ?_⟩
  injection h6 with h6
  exact h6.symm

theorem objs_set_none (l : List (Option Nat)) (k j : Nat) (q : Nat) :
    (l.set k none)[j]? = some (some q) ↔ j ≠ k ∧ l[j]? = some (some q) := by
  rw [List.getElem?_set]
  by_cases hkj : k = j
  · subst hkj
    by_cases hlen : k < l.length <;> simp [hlen]
  · have hjk : j ≠ k := fun h => hkj h.symm
    simp [hkj, hjk]

theorem objs_set_none_self (l : List (Option Nat)) (k : Nat) (q : Option Nat)
    (h : l[k]? = some q) : (l.set k none)[k]? = some none := by
  have hlen : k < l.length := (List.getElem?_eq_some.1 h).1
  rw [List.getElem?_set]
  simp [hlen]

theorem dtor_of_ptr {s : State α} {k p : Nat} (h : s.objs[k]? = some (some p)) :
    dtor s k = some
      { next := s.next, mem := Function.update s.mem p none,
        released := s.released ++ [p], objs := s.objs.set k none } := by
  simp [dtor, deleteArray, h]

theorem dtor_of_null {s : State α} {k : Nat} (h : s.objs[k]? = some none) :
    dtor s k = some
      { next := s.next, mem := s.mem, released := s.released, objs := s.objs.set k none } := by
  simp [dtor, h]

theorem dtor_cases {s s1 : State α} {k : Nat} (h : dtor s k = some s1) :
    (∃ p, s.objs[k]? = some (some p) ∧
      s1 = { next := s.next, mem := Function.update s.mem p none,
             released := s.released ++ [p], objs := s.objs.set k none }) ∨
    (s.objs[k]? = some none ∧
      s1 = { next := s.next, mem := s.mem, released := s.released,
             objs := s.objs.set k none }) := by
  rcases hk : s.objs[k]? with _ | ptr
  · simp [dtor, hk] at h
  · rcases ptr with _ | p
    · right
      rw [dtor_of_null hk] at h
      injection h with h
      exact ⟨rfl, h.symm⟩
    · left
      rw [dtor_of_ptr hk] at h
      injection h with h
      exact ⟨p, rfl, h.symm⟩

theorem inv_dtor {s s1 : State α} {k : Nat} (h : Inv s) (hd : dtor s k = some s1) :
    Inv s1 := by
  rcases dtor_cases hd with ⟨p, hk, rfl⟩ | ⟨_, rfl⟩
  · constructor
    · intro j q hj
      exact h.ptr_lt j q ((objs_set_none _ _ _ _).1 hj).2
    · intro j q hj
      obtain ⟨hjk, hj1⟩ := (objs_set_none _ _ _ _).1 hj
      have hqp : q ≠ p := by
        intro hqp
        rw [hqp] at hj1
        exact hjk (h.ptr_inj j k p hj1 hk)
      show ∃ blk, Function.update s.mem p none q = some blk
      rw [Function.update_noteq hqp]
      exact h.ptr_live j q hj1
    · intro j q hj
      obtain ⟨hjk, hj1⟩ := (objs_set_none _ _ _ _).1 hj
      have hqp : q ≠ p := by
        intro hqp
        rw [hqp] at hj1
        exact hjk (h.ptr_inj j k p hj1 hk)
      show q ∉ s.released ++ [p]
      simp only [List.mem_append, List.mem_singleton, not_or]
      exact ⟨h.ptr_fresh j q hj1, hqp⟩
    · intro i j q hi hj
      exact h.ptr_inj i j q ((objs_set_none _ _ _ _).1 hi).2 ((objs_set_none _ _ _ _).1 hj).2
    · show (s.released ++ [p]).Nodup
      rw [List.nodup_append]
      refine ⟨h.released_nodup, List.nodup_singleton p, ?_⟩
      intro a ha hb
      rw [List.mem_singleton] at hb
      subst hb
      exact h.ptr_fresh k a hk ha
    · intro q hq
      have hq : q ∈ s.released ++ [p] := hq
      rw [List.mem_append, List.mem_singleton] at hq
      rcases hq with hq | hq
      · exact h.released_lt q hq
      · subst hq
        exact h.ptr_lt k q hk
  · constructor
    · intro j q hj
      exact h.ptr_lt j q ((objs_set_none _ _ _ _).1 hj).2
    · intro j q hj
      exact h.ptr_live j q ((objs_set_none _ _ _ _).1 hj).2
    · intro j q hj
      exact h.ptr_fresh j q ((objs_set_none _ _ _ _).1 hj).2
    · intro i j q hi hj
      exact h.ptr_inj i j q ((objs_set_none _ _ _ _).1 hi).2 ((objs_set_none _ _ _ _).1 hj).2
    · exact h.released_nodup
    · exact h.released_lt

theorem inv_step [Add α] {s s1 : State α} {op : Op α} (h : Inv s)
    (hs : step s op = some s1) : Inv s1 := by
  cases op with
  | construct x y z =>
      simp only [Tracked.step] at hs
      injection hs with hs
      subst hs
      exact inv_ctor h x y z
  | plus a b =>
      obtain ⟨a0, b0, a1, b1, a2, b2, _, _, _, _, _, _, rfl⟩ := operatorPlus_eq_some hs
      exact inv_ctor h _ _ _
  | destroy k => exact inv_dtor h hs

theorem inv_run [Add α] (ops : List (Op α)) :
    ∀ {s s1 : State α}, Inv s → run ops s = some s1 → Inv s1 := by
  induction ops with
  | nil =>
      intro s s1 h hr
      simp only [Tracked.run] at hr
      injection hr with hr
      subst hr
      exact h
  | cons op ops ih =>
      intro s s1 h hr
      simp only [Tracked.run, Option.bind_eq_some] at hr
      obtain ⟨s2, hs, hr⟩ := hr
      exact ih (inv_step h hs) hr

theorem gone_ctor {s : State α} {p : Nat} (h : Gone s p) (x y z : α) :
    Gone (ctor s x y z) p := by
  have hne : p ≠ s.next := Nat.ne_of_lt h.lt_next
  constructor
  · exact h.mem_released
  · show p < s.next + 1
    exact Nat.lt_succ_of_lt h.lt_next
  · show Function.update s.mem s.next (some (array3 x y z)) p = none
    rw [Function.update_noteq hne]
    exact h.not_live
  · intro j hj
    rcases (objs_ctor s x y z j (some p)).1 hj with h1 | ⟨_, h2⟩
    · exact h.unreachable j h1
    · injection h2 with h2
      exact hne h2

theorem gone_dtor {s s1 : State α} {p k : Nat} (h : Gone s p) (hd : dtor s k = some s1) :
    Gone s1 p := by
  rcases dtor_cases hd with ⟨q, hk, rfl⟩ | ⟨_, rfl⟩
  · have hpq : p ≠ q := by
      intro hpq
      subst hpq
      exact h.unreachable k hk
    constructor
    · show p ∈ s.released ++ [q]
      exact List.mem_append_left _ h.mem_released
    · exact h.lt_next
    · show Function.update s.mem q none p = none
      rw [Function.update_noteq hpq]
      exact h.not_live
    · intro j hj
      exact h.unreachable j ((objs_set_none _ _ _ _).1 hj).2
  · constructor
    · exact h.mem_released
    · exact h.lt_next
    · exact h.not_live
    · intro j hj
      exact h.unreachable j ((objs_set_none _ _ _ _).1 hj).2

theorem gone_step [Add α] {s s1 : State α} {p : Nat} {op : Op α} (h : Gone s p)
    (hs : step s op = some s1) : Gone s1 p := by
  cases op with
  | construct x y z =>
      simp only [Tracked.step] at hs
      injection hs with hs
      subst hs
      exact gone_ctor h x y z
  | plus a b =>
      obtain ⟨a0, b0, a1, b1, a2, b2, _, _, _, _, _, _, rfl⟩ := operatorPlus_eq_some hs
      exact gone_ctor h _ _ _
  | destroy k => exact gone_dtor h hs

theorem gone_run [Add α] (ops : List (Op α)) :
    ∀ {s s1 : State α} {p : Nat}, Gone s p → run ops s = some s1 → Gone s1 p := by
  induction ops with
  | nil =>
      intro s s1 p h hr
      simp only [Tracked.run] at hr
      injection hr with hr
      subst hr
      exact h
  | cons op ops ih =>
      intro s s1 p h hr
      simp only [Tracked.run, Option.bind_eq_some] at hr
      obtain ⟨s2, hs, hr⟩ := hr
      exact ih (gone_step h hs) hr

theorem null_step [Add α] {s s1 : State α} {k : Nat} {op : Op α}
    (h : s.objs[k]? = some none) (hs : step s op = some s1) : s1.objs[k]? = some none := by
  cases op with
  | construct x y z =>
      simp only [Tracked.step] at hs
      injection hs with hs
      subst hs
      exact (objs_ctor s x y z k none).2 (Or.inl h)
  | plus a b =>
      obtain ⟨a0, b0, a1, b1, a2, b2, _, _, _, _, _, _, rfl⟩ := operatorPlus_eq_some hs
      exact (objs_ctor s _ _ _ k none).2 (Or.inl h)
  | destroy j =>
      have hlen : k < s.objs.length := (List.getElem?_eq_some.1 h).1
      rcases dtor_cases hs with ⟨q, _, rfl⟩ | ⟨_, rfl⟩
      · show (s.objs.set j none)[k]? = some none
        rw [List.getElem?_set]
        by_cases hjk : j = k
        · subst hjk; simp [hlen]
        · simp [hjk, h]
      · show (s.objs.set j none)[k]? = some none
        rw [List.getElem?_set]
        by_cases hjk : j = k
        · subst hjk; simp [hlen]
        · simp [hjk, h]

theorem null_run [Add α] (ops : List (Op α)) :
    ∀ {s s1 : State α} {k : Nat}, s.objs[k]? = some none → run ops s = some s1 →
      s1.objs[k]? = some none := by
  induction ops with
  | nil =>
      intro s s1 k h hr
      simp only [Tracked.run] at hr
      injection hr with hr
      subst hr
      exact h
  | cons op ops ih =>
      intro s s1 k h hr
      simp only [Tracked.run, Option.bind_eq_some] at hr
      obtain ⟨s2, hs, hr⟩ := hr
      exact ih (null_step h hs) hr

theorem m_Data_of_null {s : State α} {k : Nat} (h : s.objs[k]? = some none) (i : Fin 3) :
    m_Data s k i = none := by
  simp [m_Data, h]

theorem operatorPlus_of_live [Add α] {s : State α} (h : Inv s) {a b pa pb : Nat}
    (ha : s.objs[a]? = some (some pa)) (hb : s.objs[b]? = some (some pb)) :
    ∃ blka blkb, s.mem pa = some blka ∧ s.mem pb = some blkb ∧
      (∀ i, m_Data s a i = some (blka i)) ∧ (∀ i, m_Data s b i = some (blkb i)) ∧
      operatorPlus s a b
        = some (ctor s (blka 0 + blkb 0) (blka 1 + blkb 1) (blka 2 + blkb 2)) := by
  obtain ⟨blka, hma⟩ := h.ptr_live a pa ha
  obtain ⟨blkb, hmb⟩ := h.ptr_live b pb hb
  have hda : ∀ i, m_Data s a i = some (blka i) := by
    intro i; simp [m_Data, ha, hma]
  have hdb : ∀ i, m_Data s b i = some (blkb i) := by
    intro i; simp [m_Data, hb, hmb]
  refine ⟨blka, blkb, hma, hmb, hda, hdb, ?_⟩
  simp [operatorPlus, hda, hdb, bind, pure]

theorem m_Data_ctor_old {s : State α} (h : Inv s) (x y z : α) {k : Nat}
    (hk : k < s.objs.length) (i : Fin 3) :
    m_Data (ctor s x y z) k i = m_Data s k i := by
  have hobj : (ctor s x y z).objs[k]? = s.objs[k]? := by
    show (s.objs ++ [some s.next])[k]? = s.objs[k]?
    exact List.getElem?_append_left hk
  unfold m_Data
  rw [hobj]
  rcases hq : s.objs[k]? with _ | ptr
  · rfl
  · rcases ptr with _ | q
    · rfl
    · have hlt := h.ptr_lt k q hq
      have hne : q ≠ s.next := Nat.ne_of_lt hlt
      show ((Function.update s.mem s.next (some (array3 x y z))) q).map (fun blk => blk i)
          = (s.mem q).map (fun blk => blk i)
      rw [Function.update_noteq hne]

theorem m_Data_ctor_new (s : State α) (x y z : α) (i : Fin 3) :
    m_Data (ctor s x y z) s.objs.length i = some (array3 x y z i) := by
  have hobj : (ctor s x y z).objs[s.objs.length]? = some (some s.next) :=
    (objs_ctor s x y z _ _).2 (Or.inr ⟨rfl, rfl⟩)
  unfold m_Data
  rw [hobj]
  show ((Function.update s.mem s.next (some (array3 x y z))) s.next).map (fun blk => blk i)
      = some (array3 x y z i)
  rw [Function.update_same]
  rfl

theorem chain_spec [Add α] (bs : List Nat) :
    ∀ (s : State α) (acc : Nat), Inv s → (∃ p, s.objs[acc]? = some (some p)) →
      (∀ b ∈ bs, ∃ p, s.objs[b]? = some (some p)) →
      ∃ s1 r, chain s acc bs = some (s1, r) ∧ Inv s1 ∧
        s1.objs.length = s.objs.length + bs.length ∧ s1.next = s.next + bs.length ∧
        s1.released = s.released ∧
        (∀ k : Nat, k < s.objs.length → s1.objs[k]? = s.objs[k]?) ∧
        (bs = [] → r = acc) ∧ (bs ≠ [] → r + 1 = s1.objs.length) := by
  induction bs with
  | nil =>
      intro s acc hinv _ _
      exact ⟨s, acc, rfl, hinv, rfl, rfl, rfl, fun _ _ => rfl, fun _ => rfl,
        fun h => absurd rfl h⟩
  | cons b bs ih =>
      intro s acc hinv hacc hbs
      obtain ⟨pa, ha⟩ := hacc
      obtain ⟨pb, hb⟩ := hbs b (List.mem_cons_self _ _)
      obtain ⟨blka, blkb, _, _, _, _, hplus⟩ := operatorPlus_of_live hinv ha hb
      have hinv1 := inv_ctor hinv (blka 0 + blkb 0) (blka 1 + blkb 1) (blka 2 + blkb 2)
      have hold : ∀ (k : Nat) (q : Option Nat), s.objs[k]? = some q →
          (ctor s (blka 0 + blkb 0) (blka 1 + blkb 1) (blka 2 + blkb 2)).objs[k]? = some q :=
        fun k q hk => (objs_ctor s _ _ _ k q).2 (Or.inl hk)
      have hnew : (ctor s (blka 0 + blkb 0) (blka 1 + blkb 1) (blka 2 + blkb 2)).objs[
          s.objs.length]? = some (some s.next) :=
        (objs_ctor s _ _ _ _ _).2 (Or.inr ⟨rfl, rfl⟩)
      have hlen1 : (ctor s (blka 0 + blkb 0) (blka 1 + blkb 1) (blka 2 + blkb 2)).objs.length
          = s.objs.length + 1 := by
        simp [ctor]
      obtain ⟨s1, r, hchain, hinv2, hlen, hnext, hrel, hpre, hnil, hcons⟩ :=
        ih (ctor s (blka 0 + blkb 0) (blka 1 + blkb 1) (blka 2 + blkb 2)) s.objs.length hinv1
          ⟨s.next, hnew⟩
          (fun x hx => by
            obtain ⟨p, hp⟩ := hbs x (List.mem_cons_of_mem _ hx)
            exact ⟨p, hold x _ hp⟩)
      refine ⟨s1, r, ?_, hinv2, ?_, ?_, ?_, ?_, ?_, ?_⟩
      · simp only [chain, hplus, Option.bind_some]
        exact hchain
      · rw [hlen, hlen1, List.length_cons]
        omega
      · rw [hnext, List.length_cons]
        show s.next + 1 + bs.length = s.next + (bs.length + 1)
        omega
      · rw [hrel]
        rfl
      · intro k hk
        rw [hpre k (by omega)]
        show (s.objs ++ [some s.next])[k]? = s.objs[k]?
        exact List.getElem?_append_left hk
      · intro h
        exact absurd h (List.cons_ne_nil _ _)
      · intro _
        by_cases hbs0 : bs = []
        · rw [hnil hbs0, hlen, hlen1, hbs0]
          simp
        · exact hcons hbs0

/-- What the generated copy constructor does to the discipline: after a copy
of object 0, the destructors of the two objects hand the same block to
`delete[]`. -/
theorem copyCtor_releases_twice :
    ∃ s1 s2 s3 : State ℤ,
      copyCtor (ctor State.init 1 2 3) 0 = some s1 ∧ dtor s1 0 = some s2 ∧
      dtor s2 1 = some s3 ∧ s3.released = [0, 0] :=
  ⟨_, _, _, rfl, rfl, rfl, rfl⟩

end Tracked

/-! ### Claims about `Test05.cpp` -/

section Claims

variable {α S : Type}

/-- C1. For all expression operands `a` and `b` (leaves or `AddOp` nodes, of
possibly different shapes) and every index `i` in `{0, 1, 2}`, the operands'
own reads `a[i]` and `b[i]` return floats `x` and `y`, and indexing the node
returned by `operator+(a, b)` returns `x + y`.  The evaluation goes through
the reads of `a[i]` followed by those of `b[i]` and through no construction
of a vector. -/
theorem operatorPlus_index [StorageKind α S] [Add α]
    (a b : Vector3DExpr S) (i : Fin 3) :
    ∃ x y ta tb,
      a.operatorIndex i = .ok x ∧ b.operatorIndex i = .ok y ∧
      (Expr.operatorPlus a b).operatorIndex i = .ok (x + y) ∧
      a.operatorIndexT i = .ok (x, ta) ∧ b.operatorIndexT i = .ok (y, tb) ∧
      (Expr.operatorPlus a b).operatorIndexT i = .ok (x + y, ta ++ tb) ∧
      (ta ++ tb).count Event.construct = 0 := by
  refine ⟨a.component i, b.component i, a.leaves.map (fun p => Event.read p i),
    b.leaves.map (fun p => Event.read p i), ?_, ?_, ?_, ?_, ?_, ?_, ?_⟩
  · exact a.operatorIndex_of_lt i.isLt
  · exact b.operatorIndex_of_lt i.isLt
  · rw [Vector3DExpr.operatorIndex_of_lt _ i.isLt]; rfl
  · exact a.operatorIndexT_of_lt i.isLt
  · exact b.operatorIndexT_of_lt i.isLt
  · rw [Vector3DExpr.operatorIndexT_of_lt _ i.isLt]
    simp [Expr.operatorPlus, Vector3DExpr.component, Vector3DExpr.leaves]
  · simp [List.count_append, count_construct_map]

/-- C2. For every expression `e` and both storage backends, the converting
constructor `Vector3D<Expr, Storage>(e)` returns a vector `v` with
`v[i] == e[i]` for `i` in `{0, 1, 2}`; its `x()`, `y()`, `z()` are `e[0]`,
`e[1]`, `e[2]`. -/
theorem ofExpr_components [Add α] :
    (∀ e : Vector3DExpr (StackAllocatedVector3D α),
      ∃ v, Vector3D.ofExpr e = .ok v ∧
        (∀ i : Fin 3, v.operatorIndex i = e.operatorIndex i) ∧
        e.operatorIndex 0 = .ok v.base.x ∧ e.operatorIndex 1 = .ok v.base.y ∧
        e.operatorIndex 2 = .ok v.base.z) ∧
    (∀ e : Vector3DExpr (HeapAllocatedVector3D α),
      ∃ v, Vector3D.ofExpr e = .ok v ∧
        (∀ i : Fin 3, v.operatorIndex i = e.operatorIndex i) ∧
        e.operatorIndex 0 = .ok v.base.x ∧ e.operatorIndex 1 = .ok v.base.y ∧
        e.operatorIndex 2 = .ok v.base.z) := by
  constructor
  · intro e
    refine ⟨_, Vector3D.ofExpr_eq e, ?_, ?_, ?_, ?_⟩
    · intro i
      rw [Vector3D.operatorIndex_ctor, e.operatorIndex_of_lt i.isLt, subscript_of_lt _ i.isLt]
      fin_cases i <;> rfl
    · exact e.operatorIndex_of_lt (by omega)
    · exact e.operatorIndex_of_lt (by omega)
    · exact e.operatorIndex_of_lt (by omega)
  · intro e
    refine ⟨_, Vector3D.ofExpr_eq e, ?_, ?_, ?_, ?_⟩
    · intro i
      rw [Vector3D.operatorIndex_ctor, e.operatorIndex_of_lt i.isLt, subscript_of_lt _ i.isLt]
      fin_cases i <;> rfl
    · exact e.operatorIndex_of_lt (by omega)
    · exact e.operatorIndex_of_lt (by omega)
    · exact e.operatorIndex_of_lt (by omega)

/-- C3. For both storage backends and every left-associated chain
`a1 + a2 + ... + an` with `n >= 2`, the converting constructor applied to the
lazy chain returns a vector whose `x()`, `y()`, `z()` are those of the vector
computed by the eager `operator+` on operands with the same components.  The
component addition is arbitrary (`[Add α]` only).  The last two parts are the
scenarios "Naive" and "Expr 1" of `main`: the chain `a + b + c + a + b + c`
over three vectors, each used twice. -/
theorem eager_lazy_chain_agree [Add α] (a1 a2 : α × α × α) (rest : List (α × α × α)) :
    (∃ v : Vector3D Test.Expr (StackAllocatedVector3D α),
      Vector3D.ofExpr (Expr.chain a1 (a2 :: rest)) = .ok v ∧
      v.base.x = (Naive.chain a1 (a2 :: rest) :
        Vector3D Test.Naive (StackAllocatedVector3D α)).base.x ∧
      v.base.y = (Naive.chain a1 (a2 :: rest) :
        Vector3D Test.Naive (StackAllocatedVector3D α)).base.y ∧
      v.base.z = (Naive.chain a1 (a2 :: rest) :
        Vector3D Test.Naive (StackAllocatedVector3D α)).base.z) ∧
    (∃ v : Vector3D Test.Expr (HeapAllocatedVector3D α),
      Vector3D.ofExpr (Expr.chain a1 (a2 :: rest)) = .ok v ∧
      v.base.x = (Naive.chain a1 (a2 :: rest) :
        Vector3D Test.Naive (HeapAllocatedVector3D α)).base.x ∧
      v.base.y = (Naive.chain a1 (a2 :: rest) :
        Vector3D Test.Naive (HeapAllocatedVector3D α)).base.y ∧
      v.base.z = (Naive.chain a1 (a2 :: rest) :
        Vector3D Test.Naive (HeapAllocatedVector3D α)).base.z) ∧
    (∀ (pa pb pc : Nat) (xa ya za xb yb zb xc yc zc : α),
      ∃ v : Vector3D Test.Expr (StackAllocatedVector3D α),
        Vector3D.ofExpr (Expr.sixChain
          (Vector3DExpr.leaf pa (Vector3D.ctor Test.Expr xa ya za))
          (Vector3DExpr.leaf pb (Vector3D.ctor Test.Expr xb yb zb))
          (Vector3DExpr.leaf pc (Vector3D.ctor Test.Expr xc yc zc))) = .ok v ∧
        v.base = (Naive.sixChain (Vector3D.ctor Test.Naive xa ya za)
          (Vector3D.ctor Test.Naive xb yb zb) (Vector3D.ctor Test.Naive xc yc zc) :
            Vector3D Test.Naive (StackAllocatedVector3D α)).base) ∧
    (∀ (pa pb pc : Nat) (xa ya za xb yb zb xc yc zc : α),
      ∃ v : Vector3D Test.Expr (HeapAllocatedVector3D α),
        Vector3D.ofExpr (Expr.sixChain
          (Vector3DExpr.leaf pa (Vector3D.ctor Test.Expr xa ya za))
          (Vector3DExpr.leaf pb (Vector3D.ctor Test.Expr xb yb zb))
          (Vector3DExpr.leaf pc (Vector3D.ctor Test.Expr xc yc zc))) = .ok v ∧
        v.base = (Naive.sixChain (Vector3D.ctor Test.Naive xa ya za)
          (Vector3D.ctor Test.Naive xb yb zb) (Vector3D.ctor Test.Naive xc yc zc) :
            Vector3D Test.Naive (HeapAllocatedVector3D α)).base) := by
  refine ⟨?_, ?_, ?_, ?_⟩
  · refine ⟨_, Vector3D.ofExpr_eq _, ?_, ?_, ?_⟩
    · exact (Naive.chain_m_Data (S := StackAllocatedVector3D α) a1 (a2 :: rest) 0).symm
    · exact (Naive.chain_m_Data (S := StackAllocatedVector3D α) a1 (a2 :: rest) 1).symm
    · exact (Naive.chain_m_Data (S := StackAllocatedVector3D α) a1 (a2 :: rest) 2).symm
  · refine ⟨_, Vector3D.ofExpr_eq _, ?_, ?_, ?_⟩
    · exact (Naive.chain_m_Data (S := HeapAllocatedVector3D α) a1 (a2 :: rest) 0).symm
    · exact (Naive.chain_m_Data (S := HeapAllocatedVector3D α) a1 (a2 :: rest) 1).symm
    · exact (Naive.chain_m_Data (S := HeapAllocatedVector3D α) a1 (a2 :: rest) 2).symm
  · intro pa pb pc xa ya za xb yb zb xc yc zc
    exact ⟨_, Vector3D.ofExpr_eq _, rfl⟩
  · intro pa pb pc xa ya za xb yb zb xc yc zc
    exact ⟨_, Vector3D.ofExpr_eq _, rfl⟩

/-- C6. For every triple `(x, y, z)` and both storage backends, the vector
constructed from `(x, y, z)` returns `x`, `y`, `z` from `x()`, `y()`, `z()`,
and its components read at the indices `0`, `1`, `2` are `x`, `y`, `z`. -/
theorem storage_round_trip (x y z : α) :
    ((StackAllocatedVector3D.ctor x y z).x = x ∧
      (StackAllocatedVector3D.ctor x y z).y = y ∧
      (StackAllocatedVector3D.ctor x y z).z = z ∧
      (Vector3D.ctor Test.Expr x y z :
        Vector3D Test.Expr (StackAllocatedVector3D α)).operatorIndex 0 = .ok x ∧
      (Vector3D.ctor Test.Expr x y z :
        Vector3D Test.Expr (StackAllocatedVector3D α)).operatorIndex 1 = .ok y ∧
      (Vector3D.ctor Test.Expr x y z :
        Vector3D Test.Expr (StackAllocatedVector3D α)).operatorIndex 2 = .ok z) ∧
    ((HeapAllocatedVector3D.ctor x y z).x = x ∧
      (HeapAllocatedVector3D.ctor x y z).y = y ∧
      (HeapAllocatedVector3D.ctor x y z).z = z ∧
      (Vector3D.ctor Test.Expr x y z :
        Vector3D Test.Expr (HeapAllocatedVector3D α)).operatorIndex 0 = .ok x ∧
      (Vector3D.ctor Test.Expr x y z :
        Vector3D Test.Expr (HeapAllocatedVector3D α)).operatorIndex 1 = .ok y ∧
      (Vector3D.ctor Test.Expr x y z :
        Vector3D Test.Expr (HeapAllocatedVector3D α)).operatorIndex 2 = .ok z) := by
  refine ⟨⟨rfl, rfl, rfl, rfl, rfl, rfl⟩, ⟨rfl, rfl, rfl, rfl, rfl, rfl⟩⟩

/-- C7. When the component addition is associative and commutative, for all
leaf vectors `a`, `b`, `c` (at any addresses) the vector constructed from
`a + b + c + a + b + c` and the vector constructed from
`(a + b) + (c + a) + (b + c)` are the same vector.  The two expressions list
their leaves in the same order, so associativity is all the proof uses; every
associative and commutative addition is an instance of `AddSemigroup`. -/
theorem shape_invariance [StorageKind α S] [AddSemigroup α]
    (pa pb pc : Nat) (a b c : Vector3D Test.Expr S) :
    ∃ v, Vector3D.ofExpr (Expr.sixChain (Vector3DExpr.leaf pa a) (Vector3DExpr.leaf pb b)
            (Vector3DExpr.leaf pc c)) = .ok v ∧
         Vector3D.ofExpr (Expr.threePairs (Vector3DExpr.leaf pa a) (Vector3DExpr.leaf pb b)
            (Vector3DExpr.leaf pc c)) = .ok v := by
  refine ⟨_, Vector3D.ofExpr_eq _, ?_⟩
  rw [Vector3D.ofExpr_eq]
  simp only [Expr.sixChain, Expr.threePairs, Expr.operatorPlus, Vector3DExpr.component]
  have key : ∀ p q r : α, p + q + r + p + q + r = p + q + (r + p) + (q + r) := by
    intro p q r
    simp only [add_assoc]
  rw [key, key, key]

/-- C8, as amended. For every expression and every index `i`, the read
`operator[](i)` returns a float when `i` is `0`, `1` or `2`; when `i >= 3` it
raises no `IndexOutOfRange`: the source makes no bounds check, the read falls
outside the three-element array, and no result is defined. -/
theorem operatorIndex_bounds [StorageKind α S] [Add α] (e : Vector3DExpr S) (i : Nat) :
    (i < 3 ∧ ∃ x, e.operatorIndex i = .ok x) ∨
    (3 ≤ i ∧ e.operatorIndex i = .error Fault.UndefinedBehaviour ∧
      e.operatorIndex i ≠ .error Fault.IndexOutOfRange) := by
  by_cases h : i < 3
  · exact Or.inl ⟨h, _, e.operatorIndex_of_lt h⟩
  · have h3 : 3 ≤ i := by omega
    refine Or.inr ⟨h3, e.operatorIndex_of_ge h3, ?_⟩
    rw [e.operatorIndex_of_ge h3]
    intro hc
    cases hc

/-- C8, counterexample. Reading index `3` of the leaf `(1, 2, 3)`, and of the
node `(1, 2, 3) + (4, 5, 6)`, does not fail with `IndexOutOfRange`: the read
`m_Data[3]` is made, outside the array. -/
theorem operatorIndex_three_not_IndexOutOfRange :
    ((Vector3DExpr.leaf 0 (Vector3D.ctor Test.Expr (1 : ℤ) 2 3) :
        Vector3DExpr (StackAllocatedVector3D ℤ)).operatorIndex 3
      = .error Fault.UndefinedBehaviour ∧
    (Vector3DExpr.leaf 0 (Vector3D.ctor Test.Expr (1 : ℤ) 2 3) :
        Vector3DExpr (StackAllocatedVector3D ℤ)).operatorIndex 3
      ≠ .error Fault.IndexOutOfRange) ∧
    ((Expr.operatorPlus (Vector3DExpr.leaf 0 (Vector3D.ctor Test.Expr (1 : ℤ) 2 3))
        (Vector3DExpr.leaf 1 (Vector3D.ctor Test.Expr (4 : ℤ) 5 6)) :
        Vector3DExpr (HeapAllocatedVector3D ℤ)).operatorIndex 3
      = .error Fault.UndefinedBehaviour ∧
    (Expr.operatorPlus (Vector3DExpr.leaf 0 (Vector3D.ctor Test.Expr (1 : ℤ) 2 3))
        (Vector3DExpr.leaf 1 (Vector3D.ctor Test.Expr (4 : ℤ) 5 6)) :
        Vector3DExpr (HeapAllocatedVector3D ℤ)).operatorIndex 3
      ≠ .error Fault.IndexOutOfRange) := by
  have h1 : (Vector3DExpr.leaf 0 (Vector3D.ctor Test.Expr (1 : ℤ) 2 3) :
        Vector3DExpr (StackAllocatedVector3D ℤ)).operatorIndex 3
      = .error Fault.UndefinedBehaviour := rfl
  have h2 : (Expr.operatorPlus (Vector3DExpr.leaf 0 (Vector3D.ctor Test.Expr (1 : ℤ) 2 3))
        (Vector3DExpr.leaf 1 (Vector3D.ctor Test.Expr (4 : ℤ) 5 6)) :
        Vector3DExpr (HeapAllocatedVector3D ℤ)).operatorIndex 3
      = .error Fault.UndefinedBehaviour := rfl
  refine ⟨⟨h1, ?_⟩, ⟨h2, ?_⟩⟩
  · rw [h1]
    intro hc
    cases hc
  · rw [h2]
    intro hc
    cases hc

/-- C4. For the leaves `a = (1, 2, 3)`, `b = (4, 5, 6)`, `c = (7, 8, 9)` and
both storage backends, the vector constructed from `a + b + c + a + b + c` and
the vector constructed from `(a + b) + (c + a) + (b + c)` are both
`(24, 30, 36)`.  The components are the images `lit n` of natural numbers in
any component type whose addition is exact on them up to `36`, as it is for
`float` (exact on the integers up to `2 ^ 24`) and for exact arithmetic. -/
theorem fixed_inputs_result [Add α] (lit : ℕ → α)
    (hexact : ∀ m n : ℕ, m + n ≤ 36 → lit m + lit n = lit (m + n)) :
    (Vector3D.ofExpr (Expr.sixChain
        (Vector3DExpr.leaf 0 (Vector3D.ctor Test.Expr (lit 1) (lit 2) (lit 3)))
        (Vector3DExpr.leaf 1 (Vector3D.ctor Test.Expr (lit 4) (lit 5) (lit 6)))
        (Vector3DExpr.leaf 2 (Vector3D.ctor Test.Expr (lit 7) (lit 8) (lit 9))) :
          Vector3DExpr (StackAllocatedVector3D α))
      = .ok (Vector3D.ctor Test.Expr (lit 24) (lit 30) (lit 36)) ∧
    Vector3D.ofExpr (Expr.threePairs
        (Vector3DExpr.leaf 0 (Vector3D.ctor Test.Expr (lit 1) (lit 2) (lit 3)))
        (Vector3DExpr.leaf 1 (Vector3D.ctor Test.Expr (lit 4) (lit 5) (lit 6)))
        (Vector3DExpr.leaf 2 (Vector3D.ctor Test.Expr (lit 7) (lit 8) (lit 9))) :
          Vector3DExpr (StackAllocatedVector3D α))
      = .ok (Vector3D.ctor Test.Expr (lit 24) (lit 30) (lit 36))) ∧
    (Vector3D.ofExpr (Expr.sixChain
        (Vector3DExpr.leaf 0 (Vector3D.ctor Test.Expr (lit 1) (lit 2) (lit 3)))
        (Vector3DExpr.leaf 1 (Vector3D.ctor Test.Expr (lit 4) (lit 5) (lit 6)))
        (Vector3DExpr.leaf 2 (Vector3D.ctor Test.Expr (lit 7) (lit 8) (lit 9))) :
          Vector3DExpr (HeapAllocatedVector3D α))
      = .ok (Vector3D.ctor Test.Expr (lit 24) (lit 30) (lit 36)) ∧
    Vector3D.ofExpr (Expr.threePairs
        (Vector3DExpr.leaf 0 (Vector3D.ctor Test.Expr (lit 1) (lit 2) (lit 3)))
        (Vector3DExpr.leaf 1 (Vector3D.ctor Test.Expr (lit 4) (lit 5) (lit 6)))
        (Vector3DExpr.leaf 2 (Vector3D.ctor Test.Expr (lit 7) (lit 8) (lit 9))) :
          Vector3DExpr (HeapAllocatedVector3D α))
      = .ok (Vector3D.ctor Test.Expr (lit 24) (lit 30) (lit 36))) :=
  ⟨fixed_inputs_generic lit hexact, fixed_inputs_generic lit hexact⟩

/-- C4, witness: the integers, where the sum of two natural numbers is exact. -/
theorem fixed_inputs_result_witness :
    (∀ m n : ℕ, m + n ≤ 36 → (m : ℤ) + (n : ℤ) = ((m + n : ℕ) : ℤ)) ∧
    Vector3D.ofExpr (Expr.sixChain
        (Vector3DExpr.leaf 0 (Vector3D.ctor Test.Expr (1 : ℤ) 2 3))
        (Vector3DExpr.leaf 1 (Vector3D.ctor Test.Expr (4 : ℤ) 5 6))
        (Vector3DExpr.leaf 2 (Vector3D.ctor Test.Expr (7 : ℤ) 8 9)) :
          Vector3DExpr (StackAllocatedVector3D ℤ))
      = .ok (Vector3D.ctor Test.Expr 24 30 36) ∧
    Vector3D.ofExpr (Expr.threePairs
        (Vector3DExpr.leaf 0 (Vector3D.ctor Test.Expr (1 : ℤ) 2 3))
        (Vector3DExpr.leaf 1 (Vector3D.ctor Test.Expr (4 : ℤ) 5 6))
        (Vector3DExpr.leaf 2 (Vector3D.ctor Test.Expr (7 : ℤ) 8 9)) :
          Vector3DExpr (HeapAllocatedVector3D ℤ))
      = .ok (Vector3D.ctor Test.Expr 24 30 36) :=
  ⟨fun m n _ => (Int.ofNat_add m n).symm,
   (fixed_inputs_result (fun n : ℕ => (n : ℤ)) (fun m n _ => (Int.ofNat_add m n).symm)).1.1,
   (fixed_inputs_result (fun n : ℕ => (n : ℤ)) (fun m n _ => (Int.ofNat_add m n).symm)).2.2⟩

/-- C10, as amended. For every expression `e`, constructing a vector from `e`
reads each leaf occurrence once per component: a leaf vector that occurs `k`
times in `e` is read `k` times at each of the indices `0`, `1`, `2`, hence
`3 * k` times in the whole evaluation (3 times when it occurs once), and the
only vector constructed is the destination. -/
theorem ofExpr_reads [StorageKind α S] [Add α] (e : Vector3DExpr S) :
    ∃ v t, Vector3D.ofExprT e = .ok (v, t) ∧ Vector3D.ofExpr e = .ok v ∧
      (∀ (a : Nat) (i : Fin 3), t.count (Event.read a i) = e.leaves.count a) ∧
      (∀ a : Nat, readCount a t = 3 * e.leaves.count a) ∧
      t.count Event.construct = 1 := by
  refine ⟨_, _, Vector3D.ofExprT_eq e, Vector3D.ofExpr_eq e, ?_, ?_, ?_⟩
  · intro a i
    simp only [List.count_append, count_read_map]
    fin_cases i <;> simp
  · intro a
    simp only [readCount_append, readCount_map]
    simp [readCount, Event.isReadOf]
    omega
  · simp [List.count_append, count_construct_map]

/-- C10, counterexample. In `a + b + c + a + b + c` over the three leaf
vectors `a` (address 0), `b` (address 1), `c` (address 2), the claim that each
leaf vector of the expression is read 3 times fails: the leaf `a` is read 6
times during the construction, twice at each index. -/
theorem ofExpr_reads_repeated_leaf :
    (¬ ∀ v t, Vector3D.ofExprT (Expr.sixChain
          (Vector3DExpr.leaf 0 (Vector3D.ctor Test.Expr (1 : ℤ) 2 3))
          (Vector3DExpr.leaf 1 (Vector3D.ctor Test.Expr (4 : ℤ) 5 6))
          (Vector3DExpr.leaf 2 (Vector3D.ctor Test.Expr (7 : ℤ) 8 9)) :
            Vector3DExpr (StackAllocatedVector3D ℤ)) = .ok (v, t) →
        ∀ a ∈ (Expr.sixChain
          (Vector3DExpr.leaf 0 (Vector3D.ctor Test.Expr (1 : ℤ) 2 3))
          (Vector3DExpr.leaf 1 (Vector3D.ctor Test.Expr (4 : ℤ) 5 6))
          (Vector3DExpr.leaf 2 (Vector3D.ctor Test.Expr (7 : ℤ) 8 9)) :
            Vector3DExpr (StackAllocatedVector3D ℤ)).leaves, readCount a t = 3) ∧
    (∃ v t, Vector3D.ofExprT (Expr.sixChain
          (Vector3DExpr.leaf 0 (Vector3D.ctor Test.Expr (1 : ℤ) 2 3))
          (Vector3DExpr.leaf 1 (Vector3D.ctor Test.Expr (4 : ℤ) 5 6))
          (Vector3DExpr.leaf 2 (Vector3D.ctor Test.Expr (7 : ℤ) 8 9)) :
            Vector3DExpr (StackAllocatedVector3D ℤ)) = .ok (v, t) ∧
        readCount 0 t = 6 ∧ t.count (Event.read 0 0) = 2) := by
  constructor
  · intro hall
    have h := hall _ _ (Vector3D.ofExprT_eq _) 0
      (by simp [Expr.sixChain, Expr.operatorPlus, Vector3DExpr.leaves])
    revert h
    simp only [Expr.sixChain, Expr.operatorPlus, Vector3DExpr.leaves]
    decide
  · refine ⟨_, _, Vector3D.ofExprT_eq _, ?_, ?_⟩
    · simp only [Expr.sixChain, Expr.operatorPlus, Vector3DExpr.leaves]
      decide
    · simp only [Expr.sixChain, Expr.operatorPlus, Vector3DExpr.leaves]
      decide

/-- C5. For both storage backends and all eager vectors `a` and `b`,
`operator+(a, b)` returns a vector `r` with `r.x == a.x + b.x`,
`r.y == a.y + b.y`, `r.z == a.z + b.z`.  In the allocation-tracking model of
the heap backend, on every reachable state and all operands that own a block,
`operator+` returns, its result is a new object holding the three sums, and
every object that existed before, `a` and `b` among them, keeps its pointer
and its components; nothing is released. -/
theorem naive_operatorPlus_sum [Add α] :
    (∀ a b : Vector3D Test.Naive (StackAllocatedVector3D α),
      (Naive.operatorPlus a b).base.x = a.base.x + b.base.x ∧
      (Naive.operatorPlus a b).base.y = a.base.y + b.base.y ∧
      (Naive.operatorPlus a b).base.z = a.base.z + b.base.z) ∧
    (∀ a b : Vector3D Test.Naive (HeapAllocatedVector3D α),
      (Naive.operatorPlus a b).base.x = a.base.x + b.base.x ∧
      (Naive.operatorPlus a b).base.y = a.base.y + b.base.y ∧
      (Naive.operatorPlus a b).base.z = a.base.z + b.base.z) ∧
    (∀ (ops : List (Tracked.Op α)) (s : Tracked.State α) (a b pa pb : Nat),
      Tracked.run ops Tracked.State.init = some s →
      s.objs[a]? = some (some pa) → s.objs[b]? = some (some pb) →
      ∃ s1, Tracked.operatorPlus s a b = some s1 ∧
        s1.objs = s.objs ++ [some s.next] ∧ s1.released = s.released ∧
        (∀ (k : Nat) (i : Fin 3), k < s.objs.length →
          Tracked.m_Data s1 k i = Tracked.m_Data s k i) ∧
        (∀ i : Fin 3, ∃ x y, Tracked.m_Data s a i = some x ∧ Tracked.m_Data s b i = some y ∧
          Tracked.m_Data s1 s.objs.length i = some (x + y))) := by
  refine ⟨fun a b => ⟨rfl, rfl, rfl⟩, fun a b => ⟨rfl, rfl, rfl⟩, ?_⟩
  intro ops s a b pa pb hrun ha hb
  have hinv : Tracked.Inv s := Tracked.inv_run ops Tracked.inv_init hrun
  obtain ⟨blka, blkb, _, _, hda, hdb, hplus⟩ := Tracked.operatorPlus_of_live hinv ha hb
  refine ⟨_, hplus, rfl, rfl, ?_, ?_⟩
  · intro k i hk
    exact Tracked.m_Data_ctor_old hinv _ _ _ hk i
  · intro i
    refine ⟨blka i, blkb i, hda i, hdb i, ?_⟩
    rw [Tracked.m_Data_ctor_new]
    fin_cases i <;> rfl

/-- C5, witness: after `a = (1, 2, 3)` and `b = (4, 5, 6)` are constructed,
`a + b` is the new object 2 with components `(5, 7, 9)`, and `a`, `b` are as
before. -/
theorem naive_operatorPlus_sum_witness :
    ∃ s : Tracked.State ℤ,
      Tracked.run [Tracked.Op.construct 1 2 3, Tracked.Op.construct 4 5 6]
        Tracked.State.init = some s ∧
      s.objs[0]? = some (some 0) ∧ s.objs[1]? = some (some 1) ∧
      ∃ s1, Tracked.operatorPlus s 0 1 = some s1 ∧
        s1.objs = s.objs ++ [some s.next] ∧ s1.released = s.released ∧
        (∀ (k : Nat) (i : Fin 3), k < s.objs.length →
          Tracked.m_Data s1 k i = Tracked.m_Data s k i) ∧
        (∀ i : Fin 3, ∃ x y, Tracked.m_Data s 0 i = some x ∧ Tracked.m_Data s 1 i = some y ∧
          Tracked.m_Data s1 s.objs.length i = some (x + y)) :=
  ⟨_, rfl, rfl, rfl,
    naive_operatorPlus_sum.2.2 [Tracked.Op.construct 1 2 3, Tracked.Op.construct 4 5 6]
      _ 0 1 0 1 rfl rfl rfl⟩

/-- C9. In every state reached by a sequence of constructions, eager
`operator+` and destructions of `HeapAllocatedVector3D` vectors, no block has
been released twice.  For every object that owns a block `p`: `p` is allocated
and has not been released; the destructor of the object returns; and in every
state reached afterwards by further operations the pointer of the object is
null, no component can be read through the object, `p` has been released
exactly once, `p` is not allocated and no object points to `p`. -/
theorem heap_block_released_once [Add α] (ops : List (Tracked.Op α)) (s : Tracked.State α)
    (hrun : Tracked.run ops Tracked.State.init = some s) :
    s.released.Nodup ∧
    ∀ (k p : Nat), s.objs[k]? = some (some p) →
      s.released.count p = 0 ∧ (∃ blk, s.mem p = some blk) ∧
      ∃ s1, Tracked.dtor s k = some s1 ∧
        ∀ (ops1 : List (Tracked.Op α)) (s2 : Tracked.State α),
          Tracked.run ops1 s1 = some s2 →
          s2.objs[k]? = some none ∧ (∀ i : Fin 3, Tracked.m_Data s2 k i = none) ∧
          s2.released.count p = 1 ∧ s2.mem p = none ∧
          (∀ j : Nat, s2.objs[j]? ≠ some (some p)) ∧ s2.released.Nodup := by
  have hinv : Tracked.Inv s := Tracked.inv_run ops Tracked.inv_init hrun
  refine ⟨hinv.released_nodup, ?_⟩
  intro k p hk
  refine ⟨List.count_eq_zero_of_not_mem (hinv.ptr_fresh k p hk), hinv.ptr_live k p hk,
    _, Tracked.dtor_of_ptr hk, ?_⟩
  intro ops1 s2 hrun1
  have hinv1 : Tracked.Inv _ := Tracked.inv_dtor hinv (Tracked.dtor_of_ptr hk)
  have hnull1 : (s.objs.set k none)[k]? = some none := Tracked.objs_set_none_self _ _ _ hk
  have hgone1 : Tracked.Gone
      ({ next := s.next, mem := Function.update s.mem p none,
         released := s.released ++ [p], objs := s.objs.set k none } : Tracked.State α) p := by
    constructor
    · show p ∈ s.released ++ [p]
      simp
    · exact hinv.ptr_lt k p hk
    · show Function.update s.mem p none p = none
      exact Function.update_same _ _ _
    · intro j hj
      obtain ⟨hjk, hj1⟩ := (Tracked.objs_set_none _ _ _ _).1 hj
      exact hjk (hinv.ptr_inj j k p hj1 hk)
  have hinv2 : Tracked.Inv s2 := Tracked.inv_run ops1 hinv1 hrun1
  have hgone2 : Tracked.Gone s2 p := Tracked.gone_run ops1 hgone1 hrun1
  have hnull2 : s2.objs[k]? = some none := Tracked.null_run ops1 hnull1 hrun1
  exact ⟨hnull2, Tracked.m_Data_of_null hnull2,
    List.count_eq_one_of_mem hinv2.released_nodup hgone2.mem_released,
    hgone2.not_live, hgone2.unreachable, hinv2.released_nodup⟩

/-- C9, witness: `a = (1, 2, 3)`, `b = (4, 5, 6)`, the temporary `a + b`
(object 2, block 2), then the destructors of the temporary and of `a`.  The
blocks 2 and 0 have been released, in this order, and the object `b` still
owns its block 1. -/
theorem heap_block_released_once_witness :
    (Tracked.run [Tracked.Op.construct (1 : ℤ) 2 3, Tracked.Op.construct 4 5 6,
        Tracked.Op.plus 0 1, Tracked.Op.destroy 2, Tracked.Op.destroy 0]
        Tracked.State.init).map (fun s => (s.released, s.objs))
      = some ([2, 0], [none, some 1, none]) ∧
    ∃ s : Tracked.State ℤ,
      Tracked.run [Tracked.Op.construct 1 2 3, Tracked.Op.construct 4 5 6,
        Tracked.Op.plus 0 1, Tracked.Op.destroy 2, Tracked.Op.destroy 0]
        Tracked.State.init = some s ∧
      s.released.Nodup ∧
      ∀ (k p : Nat), s.objs[k]? = some (some p) →
        s.released.count p = 0 ∧ (∃ blk, s.mem p = some blk) ∧
        ∃ s1, Tracked.dtor s k = some s1 ∧
          ∀ (ops1 : List (Tracked.Op ℤ)) (s2 : Tracked.State ℤ),
            Tracked.run ops1 s1 = some s2 →
            s2.objs[k]? = some none ∧ (∀ i : Fin 3, Tracked.m_Data s2 k i = none) ∧
            s2.released.count p = 1 ∧ s2.mem p = none ∧
            (∀ j : Nat, s2.objs[j]? ≠ some (some p)) ∧ s2.released.Nodup := by
  refine ⟨rfl, ?_⟩
  have h : ∃ s : Tracked.State ℤ,
      Tracked.run [Tracked.Op.construct 1 2 3, Tracked.Op.construct 4 5 6,
        Tracked.Op.plus 0 1, Tracked.Op.destroy 2, Tracked.Op.destroy 0]
        Tracked.State.init = some s := ⟨_, rfl⟩
  obtain ⟨s, hs⟩ := h
  exact ⟨s, hs, heap_block_released_once _ s hs⟩

/-- C17, as amended. Evaluating the eager chain `a1 + a2 + ... + an`, `n >= 2`,
calls `operator+` once per operand after the first, and each call constructs
one new vector, which it returns: `n - 1` vectors are constructed, the `k`-th
being the sum of the first `k + 1` operands.  The last of them is the final
result itself, so `n - 2` intermediate vectors are produced before the final
result; for the six operands of `a + b + c + d + e + f` there are 5 calls and 5
constructed vectors, 4 intermediate vectors and the result.  In the
allocation-tracking model of the heap backend the chain, on operands that own
a block in a reachable state, returns, adds `n - 1` objects and allocates
`n - 1` blocks, releases nothing, and its value is the last object
constructed. -/
theorem eager_chain_materialises [StorageKind α S] [Add α]
    (a1 a2 : α × α × α) (rest : List (α × α × α)) :
    (Naive.chainT a1 (a2 :: rest) : Vector3D Test.Naive S × _).1
      = Naive.chain a1 (a2 :: rest) ∧
    (Naive.chainT a1 (a2 :: rest) : Vector3D Test.Naive S × _).2.length
      = (rest.length + 2) - 1 ∧
    (Naive.chainT a1 (a2 :: rest) : Vector3D Test.Naive S × _).2
      = (List.range (rest.length + 1)).map
          (fun k => Naive.chain a1 ((a2 :: rest).take (k + 1))) ∧
    (Naive.chainT a1 (a2 :: rest) : Vector3D Test.Naive S × _).2.getLast?
      = some (Naive.chainT a1 (a2 :: rest) : Vector3D Test.Naive S × _).1 ∧
    (Naive.intermediates
        (Naive.chainT a1 (a2 :: rest) : Vector3D Test.Naive S × _).2).length
      = (rest.length + 2) - 2 ∧
    (∀ (a b : Vector3D Test.Naive S) (made : List (Vector3D Test.Naive S)),
      Naive.operatorPlusT a b made
        = (Naive.operatorPlus a b, made ++ [Naive.operatorPlus a b])) ∧
    (∀ b c d e f : α × α × α,
      (Naive.chainT a1 [b, c, d, e, f] : Vector3D Test.Naive S × _).2.length = 5 ∧
      (Naive.intermediates
        (Naive.chainT a1 [b, c, d, e, f] : Vector3D Test.Naive S × _).2).length = 4) ∧
    (∀ (ops : List (Tracked.Op α)) (s : Tracked.State α) (acc b : Nat) (bs : List Nat),
      Tracked.run ops Tracked.State.init = some s →
      (∀ k ∈ acc :: b :: bs, ∃ p : Nat, s.objs[k]? = some (some p)) →
      ∃ s1 r, Tracked.chain s acc (b :: bs) = some (s1, r) ∧
        s1.objs.length = s.objs.length + ((bs.length + 2) - 1) ∧
        s1.next = s.next + ((bs.length + 2) - 1) ∧
        s1.released = s.released ∧
        (∀ k : Nat, k < s.objs.length → s1.objs[k]? = s.objs[k]?) ∧
        r + 1 = s1.objs.length ∧
        r - s.objs.length = (bs.length + 2) - 2) := by
  have h := Naive.chainT_fold (S := S) (a2 :: rest)
    (Vector3D.ctor Test.Naive a1.1 a1.2.1 a1.2.2) []
  have hfst : (Naive.chainT a1 (a2 :: rest) : Vector3D Test.Naive S × _).1
      = Naive.chain a1 (a2 :: rest) := by
    unfold Naive.chainT Naive.chain
    rw [h]
  have hsnd : (Naive.chainT a1 (a2 :: rest) : Vector3D Test.Naive S × _).2
      = (List.range (rest.length + 1)).map
          (fun k => Naive.chain a1 ((a2 :: rest).take (k + 1))) := by
    unfold Naive.chainT Naive.chain
    rw [h]
    simp
  have hlen : (Naive.chainT a1 (a2 :: rest) : Vector3D Test.Naive S × _).2.length
      = rest.length + 1 := by
    rw [hsnd]
    simp
  have hlast : (Naive.chainT a1 (a2 :: rest) : Vector3D Test.Naive S × _).2.getLast?
      = some (Naive.chainT a1 (a2 :: rest) : Vector3D Test.Naive S × _).1 := by
    rw [hfst, hsnd, List.range_succ, List.map_append, List.map_singleton,
      List.getLast?_concat]
    have htake : (a2 :: rest).take (rest.length + 1) = a2 :: rest :=
      List.take_of_length_le (by simp)
    rw [htake]
  refine ⟨hfst, by rw [hlen]; omega, hsnd, hlast, ?_, ?_, ?_, ?_⟩
  · unfold Naive.intermediates
    rw [List.length_dropLast, hlen]
    omega
  · intro a b made
    rfl
  · intro b c d e f
    exact ⟨rfl, rfl⟩
  · intro ops s acc b bs hrun hlive
    have hinv : Tracked.Inv s := Tracked.inv_run ops Tracked.inv_init hrun
    obtain ⟨s1, r, hchain, _, hlen1, hnext, hrel, hpre, _, hcons⟩ :=
      Tracked.chain_spec (b :: bs) s acc hinv (hlive acc (List.mem_cons_self _ _))
        (fun x hx => hlive x (List.mem_cons_of_mem _ hx))
    have hr := hcons (List.cons_ne_nil _ _)
    rw [List.length_cons] at hlen1 hnext
    refine ⟨s1, r, hchain, by omega, by omega, hrel, hpre, hr, by omega⟩

/-- C17, witness: the chain `a + b + c` on the objects 0, 1, 2 of the heap
backend, with `a = (1, 2, 3)`, `b = (4, 5, 6)`, `c = (7, 8, 9)`: two objects
are added, and the value of the chain is object 4, the last one. -/
theorem eager_chain_materialises_witness :
    ∃ s : Tracked.State ℤ,
      Tracked.run [Tracked.Op.construct 1 2 3, Tracked.Op.construct 4 5 6,
        Tracked.Op.construct 7 8 9] Tracked.State.init = some s ∧
      s.objs.length = 3 ∧
      ∃ s1 r, Tracked.chain s 0 [1, 2] = some (s1, r) ∧
        s1.objs.length = s.objs.length + ((1 + 2) - 1) ∧
        s1.next = s.next + ((1 + 2) - 1) ∧
        s1.released = s.released ∧
        (∀ k : Nat, k < s.objs.length → s1.objs[k]? = s.objs[k]?) ∧
        r + 1 = s1.objs.length ∧
        r - s.objs.length = (1 + 2) - 2 := by
  have h : ∃ s : Tracked.State ℤ,
      Tracked.run [Tracked.Op.construct 1 2 3, Tracked.Op.construct 4 5 6,
        Tracked.Op.construct 7 8 9] Tracked.State.init = some s ∧
      s.objs = [some 0, some 1, some 2] := ⟨_, rfl, rfl⟩
  obtain ⟨s, hs, hobjs⟩ := h
  refine ⟨s, hs, by rw [hobjs]; rfl, ?_⟩
  refine (eager_chain_materialises (S := StackAllocatedVector3D ℤ) (0, 0, 0) (0, 0, 0)
    []).2.2.2.2.2.2.2 _ s 0 1 [2] hs ?_
  intro k hk
  rw [hobjs]
  simp only [List.mem_cons, List.mem_singleton, List.not_mem_nil, or_false] at hk
  rcases hk with rfl | rfl | rfl
  · exact ⟨0, rfl⟩
  · exact ⟨1, rfl⟩
  · exact ⟨2, rfl⟩

/-- C17, counterexample. For the six operands of `a + b + c + a + b + c` with
`a = (1, 2, 3)`, `b = (4, 5, 6)`, `c = (7, 8, 9)`, the vectors produced before
the final result are 4, not 5: the five calls of `operator+` construct five
vectors and the fifth is the final result.  On the stack backend this is read
on the list of the constructed vectors; on the heap backend, where the
operands are the objects 0, 1, 2, the chain adds 5 objects and its value is
the fifth of them, 4 objects after the operands. -/
theorem eager_chain_four_intermediates :
    (Naive.chainT ((1 : ℤ), 2, 3) [(4, 5, 6), (7, 8, 9), (1, 2, 3), (4, 5, 6), (7, 8, 9)] :
        Vector3D Test.Naive (StackAllocatedVector3D ℤ) × _).2.length = 5 ∧
    (Naive.chainT ((1 : ℤ), 2, 3) [(4, 5, 6), (7, 8, 9), (1, 2, 3), (4, 5, 6), (7, 8, 9)] :
        Vector3D Test.Naive (StackAllocatedVector3D ℤ) × _).2.getLast?
      = some (Naive.chainT ((1 : ℤ), 2, 3)
          [(4, 5, 6), (7, 8, 9), (1, 2, 3), (4, 5, 6), (7, 8, 9)] :
            Vector3D Test.Naive (StackAllocatedVector3D ℤ) × _).1 ∧
    (Naive.intermediates
      (Naive.chainT ((1 : ℤ), 2, 3) [(4, 5, 6), (7, 8, 9), (1, 2, 3), (4, 5, 6), (7, 8, 9)] :
        Vector3D Test.Naive (StackAllocatedVector3D ℤ) × _).2).length = 4 ∧
    ¬ ((Naive.intermediates
      (Naive.chainT ((1 : ℤ), 2, 3) [(4, 5, 6), (7, 8, 9), (1, 2, 3), (4, 5, 6), (7, 8, 9)] :
        Vector3D Test.Naive (StackAllocatedVector3D ℤ) × _).2).length = 5) ∧
    (Tracked.run [Tracked.Op.construct (1 : ℤ) 2 3, Tracked.Op.construct 4 5 6,
        Tracked.Op.construct 7 8 9] Tracked.State.init).bind
      (fun s => (Tracked.chain s 0 [1, 2, 0, 1, 2]).map
        (fun x => (x.1.objs.length - s.objs.length, x.2 - s.objs.length)))
      = some (5, 4) := by
  have hlen : (Naive.intermediates
      (Naive.chainT ((1 : ℤ), 2, 3) [(4, 5, 6), (7, 8, 9), (1, 2, 3), (4, 5, 6), (7, 8, 9)] :
        Vector3D Test.Naive (StackAllocatedVector3D ℤ) × _).2).length = 4 := rfl
  refine ⟨rfl, rfl, hlen, ?_, rfl⟩
  rw [hlen]
  decide

end Claims

end Test05

/-! ## Theorems of part 2 (`MatrixBase.h`) -/

namespace MatrixBase

open MatrixExpression

section RowFacts

variable {D T : Type} [MatrixExpression D T]

theorem swapLoop_spec (i j : Nat) (n : Nat) (d : D) :
    Line ((List.range n).foldl
        (fun m k => set (set m i k (get m j k)) j k (get m i k)) d) = Line d ∧
    Column ((List.range n).foldl
        (fun m k => set (set m i k (get m j k)) j k (get m i k)) d) = Column d ∧
    ∀ r c, get ((List.range n).foldl
        (fun m k => set (set m i k (get m j k)) j k (get m i k)) d) r c
      = if c < n then (if r = j then get d i c else if r = i then get d j c else get d r c)
        else get d r c := by
  induction n with
  | zero => simp
  | succ n ih =>
      obtain ⟨hL, hC, hg⟩ := ih
      rw [List.range_succ, List.foldl_append]
      simp only [List.foldl_cons, List.foldl_nil]
      refine ⟨?_, ?_, ?_⟩
      · rw [Line_set, Line_set, hL]
      · rw [Column_set, Column_set, hC]
      · intro r c
        rw [get_set, get_set, hg, hg, hg]
        by_cases hcn : c = n
        · subst hcn
          by_cases hrj : r = j
          · simp [hrj]
          · by_cases hri : r = i
            · simp [hrj, hri]
            · simp [hrj, hri]
        · have h1 : c < n + 1 ↔ c < n := by omega
          simp [hcn, h1]

theorem scaleLoop_spec [Mul T] (idx : Nat) (f : T) (n : Nat) (d : D) :
    Line ((List.range n).foldl (fun m j => set m idx j (get m idx j * f)) d) = Line d ∧
    Column ((List.range n).foldl (fun m j => set m idx j (get m idx j * f)) d) = Column d ∧
    ∀ r c, get ((List.range n).foldl (fun m j => set m idx j (get m idx j * f)) d) r c
      = if r = idx ∧ c < n then get d r c * f else get d r c := by
  induction n with
  | zero => simp
  | succ n ih =>
      obtain ⟨hL, hC, hg⟩ := ih
      rw [List.range_succ, List.foldl_append]
      simp only [List.foldl_cons, List.foldl_nil]
      refine ⟨?_, ?_, ?_⟩
      · rw [Line_set, hL]
      · rw [Column_set, hC]
      · intro r c
        rw [get_set, hg, hg]
        by_cases hcn : c = n
        · subst hcn
          by_cases hr : r = idx
          · simp [hr]
          · simp [hr]
        · have h1 : c < n + 1 ↔ c < n := by omega
          simp [hcn, h1]

theorem combineLoop_spec [Mul T] [Add T] (idx1 : Nat) (f1 : T) (idx2 : Nat) (f2 : T)
    (n : Nat) (d : D) :
    Line ((List.range n).foldl
        (fun m j => set m idx1 j (f1 * get m idx1 j + f2 * get m idx2 j)) d) = Line d ∧
    Column ((List.range n).foldl
        (fun m j => set m idx1 j (f1 * get m idx1 j + f2 * get m idx2 j)) d) = Column d ∧
    ∀ r c, get ((List.range n).foldl
        (fun m j => set m idx1 j (f1 * get m idx1 j + f2 * get m idx2 j)) d) r c
      = if r = idx1 ∧ c < n then f1 * get d idx1 c + f2 * get d idx2 c else get d r c := by
  induction n with
  | zero => simp
  | succ n ih =>
      obtain ⟨hL, hC, hg⟩ := ih
      rw [List.range_succ, List.foldl_append]
      simp only [List.foldl_cons, List.foldl_nil]
      refine ⟨?_, ?_, ?_⟩
      · rw [Line_set, hL]
      · rw [Column_set, hC]
      · intro r c
        rw [get_set, hg, hg, hg]
        by_cases hcn : c = n
        · subst hcn
          by_cases hr : r = idx1
          · simp [hr]
          · simp [hr]
        · have h1 : c < n + 1 ↔ c < n := by omega
          simp [hcn, h1]

theorem SwapLines_of_lt {d : D} {i j : Nat} (hi : i < Line d) (hj : j < Line d) :
    ∃ m, SwapLines d i j = (.ok (), m) ∧ Line m = Line d ∧ Column m = Column d ∧
      ∀ r c, get m r c
        = if c < Column d then (if r = j then get d i c else if r = i then get d j c
            else get d r c)
          else get d r c := by
  have hcond : ¬ (i ≥ Line d ∨ j ≥ Line d) := by omega
  obtain ⟨hL, hC, hg⟩ := swapLoop_spec i j (Column d) d
  exact ⟨_, by simp only [SwapLines, hcond, if_false], hL, hC, hg⟩

theorem SwapLines_of_ge {d : D} {i j : Nat} (h : Line d ≤ i ∨ Line d ≤ j) :
    SwapLines d i j = (.error (.out_of_range "Index out of range."), d) := by
  have hcond : i ≥ Line d ∨ j ≥ Line d := h
  simp only [SwapLines, hcond, if_true]

theorem ScaleLine_of_lt [Mul T] {d : D} {idx : Nat} (f : T) (hi : idx < Line d) :
    ∃ m, ScaleLine d idx f = (.ok (), m) ∧ Line m = Line d ∧ Column m = Column d ∧
      ∀ r c, get m r c = if r = idx ∧ c < Column d then get d r c * f else get d r c := by
  have hcond : ¬ (idx ≥ Line d) := by omega
  obtain ⟨hL, hC, hg⟩ := scaleLoop_spec idx f (Column d) d
  exact ⟨_, by simp only [ScaleLine, hcond, if_false], hL, hC, hg⟩

theorem ScaleLine_of_ge [Mul T] {d : D} {idx : Nat} (f : T) (h : Line d ≤ idx) :
    ScaleLine d idx f = (.error (.out_of_range "Index out of range."), d) := by
  have hcond : idx ≥ Line d := h
  simp only [ScaleLine, hcond, if_true]

theorem CombineLines_of_lt [Mul T] [Add T] {d : D} {idx1 idx2 : Nat} (f1 f2 : T)
    (h1 : idx1 < Line d) (h2 : idx2 < Line d) :
    ∃ m, CombineLines d idx1 f1 idx2 f2 = (.ok (), m) ∧ Line m = Line d ∧
      Column m = Column d ∧
      ∀ r c, get m r c
        = if r = idx1 ∧ c < Column d then f1 * get d idx1 c + f2 * get d idx2 c
          else get d r c := by
  have hcond : ¬ (idx1 ≥ Line d ∨ idx2 ≥ Line d) := by omega
  obtain ⟨hL, hC, hg⟩ := combineLoop_spec idx1 f1 idx2 f2 (Column d) d
  exact ⟨_, by simp only [CombineLines, hcond, if_false], hL, hC, hg⟩

theorem CombineLines_of_ge [Mul T] [Add T] {d : D} {idx1 idx2 : Nat} (f1 f2 : T)
    (h : Line d ≤ idx1 ∨ Line d ≤ idx2) :
    CombineLines d idx1 f1 idx2 f2 = (.error (.out_of_range "Index out of range."), d) := by
  have hcond : idx1 ≥ Line d ∨ idx2 ≥ Line d := h
  simp only [CombineLines, hcond, if_true]

end RowFacts

end MatrixBase

namespace MatrixBase

open MatrixExpression

section GaussFacts

variable {D K : Type} [MatrixExpression D K] [LinearOrderedField K]

theorem findPivot_fold (d : D) (j lp : Nat) (m : Nat) :
    ((List.range' lp m).foldl
        (fun (acc : K × Nat) i => if |get d i j| > acc.1 then (|get d i j|, i) else acc)
        (0, 0) = (0, 0) ∧ ∀ i, lp ≤ i → i < lp + m → get d i j = 0) ∨
    (0 < ((List.range' lp m).foldl
        (fun (acc : K × Nat) i => if |get d i j| > acc.1 then (|get d i j|, i) else acc)
        (0, 0)).1 ∧
      lp ≤ ((List.range' lp m).foldl
        (fun (acc : K × Nat) i => if |get d i j| > acc.1 then (|get d i j|, i) else acc)
        (0, 0)).2 ∧
      ((List.range' lp m).foldl
        (fun (acc : K × Nat) i => if |get d i j| > acc.1 then (|get d i j|, i) else acc)
        (0, 0)).2 < lp + m ∧
      get d ((List.range' lp m).foldl
        (fun (acc : K × Nat) i => if |get d i j| > acc.1 then (|get d i j|, i) else acc)
        (0, 0)).2 j ≠ 0) := by
  induction m with
  | zero =>
      left
      refine ⟨by simp, ?_⟩
      intro i h1 h2
      omega
  | succ m ih =>
      rw [List.range'_concat, List.foldl_append]
      simp only [List.foldl_cons, List.foldl_nil, one_mul]
      generalize (List.range' lp m).foldl
        (fun (acc : K × Nat) i => if |get d i j| > acc.1 then (|get d i j|, i) else acc)
        (0, 0) = acc at ih ⊢
      by_cases hgt : |get d (lp + m) j| > acc.1
      · right
        simp only [hgt, if_true]
        have hnonneg : 0 ≤ acc.1 := by
          rcases ih with ⟨h0, _⟩ | ⟨hpos, _⟩
          · rw [h0]
          · exact le_of_lt hpos
        have hpos : 0 < |get d (lp + m) j| := lt_of_le_of_lt hnonneg hgt
        refine ⟨hpos, by omega, by omega, ?_⟩
        exact abs_pos.1 hpos
      · simp only [hgt, if_false]
        rcases ih with ⟨h0, hz⟩ | ⟨hpos, h1, h2, h3⟩
        · left
          refine ⟨h0, ?_⟩
          intro i hi1 hi2
          by_cases him : i = lp + m
          · subst him
            rw [h0] at hgt
            have : |get d (lp + m) j| ≤ 0 := not_lt.1 hgt
            exact abs_nonpos_iff.1 this
          · exact hz i hi1 (by omega)
        · right
          exact ⟨hpos, h1, by omega, h3⟩

theorem findPivot_spec (d : D) (j lp L : Nat)
    (hex : ∃ i, lp ≤ i ∧ i < L ∧ get d i j ≠ 0) :
    lp ≤ (findPivot d j lp L).2 ∧ (findPivot d j lp L).2 < L ∧
      get d (findPivot d j lp L).2 j ≠ 0 := by
  obtain ⟨i, hi1, hi2, hi3⟩ := hex
  have hL : lp + (L - lp) = L := by omega
  rcases findPivot_fold d j lp (L - lp) with ⟨_, hz⟩ | ⟨_, h1, h2, h3⟩
  · exact absurd (hz i hi1 (by omega)) hi3
  · exact ⟨h1, by simpa [findPivot, hL] using h2, h3⟩

theorem exists_pivot_of_det_ne_zero (n j : Nat) (hj : j < n) (d : D)
    (hunit : ∀ r c, r < n → c < j → get d r c = if r = c then (1 : K) else 0)
    (hdet : (toMatrix n d).det ≠ 0) :
    ∃ i, j ≤ i ∧ i < n ∧ get d i j ≠ 0 := by
  by_contra hcon
  have hzero : ∀ i, j ≤ i → i < n → get d i j = 0 := by
    intro i h1 h2
    by_contra h3
    exact hcon ⟨i, h1, h2, h3⟩
  apply hdet
  rw [← Matrix.exists_mulVec_eq_zero_iff]
  refine ⟨fun c => if c.val < j then get d c.val j else if c.val = j then -1 else 0, ?_, ?_⟩
  · intro hv
    have := congrFun hv ⟨j, hj⟩
    simp at this
  · funext r
    simp only [Matrix.mulVec, Matrix.dotProduct, toMatrix, Matrix.of_apply, Pi.zero_apply]
    have hterm : ∀ c : Fin n,
        get d r.val c.val * (if c.val < j then get d c.val j else if c.val = j then -1 else 0)
          = (if r = c then (if r.val < j then get d r.val j else 0) else 0)
            + (if (⟨j, hj⟩ : Fin n) = c then -(get d r.val j) else 0) := by
      intro c
      by_cases hc : c.val < j
      · have hne : (⟨j, hj⟩ : Fin n) ≠ c := by
          intro h
          have := congrArg Fin.val h
          simp at this
          omega
        rw [hunit r.val c.val r.isLt hc]
        by_cases hrc : r = c
        · subst hrc
          simp [hc, hne]
        · have hrc2 : r.val ≠ c.val := fun h => hrc (Fin.ext h)
          simp [hc, hne, hrc, hrc2]
      · by_cases hcj : c.val = j
        · have heq : (⟨j, hj⟩ : Fin n) = c := Fin.ext hcj.symm
          by_cases hrc : r = c
          · subst hrc
            simp [hc, hcj, heq]
          · simp [hc, hcj, heq, hrc]
        · have hne : (⟨j, hj⟩ : Fin n) ≠ c := by
            intro h
            exact hcj (congrArg Fin.val h).symm
          by_cases hrc : r = c
          · subst hrc
            simp [hc, hcj, hne]
          · simp [hc, hcj, hne, hrc]
    rw [Finset.sum_congr rfl (fun c _ => hterm c), Finset.sum_add_distrib,
      Finset.sum_ite_eq, Finset.sum_ite_eq]
    simp only [Finset.mem_univ, if_true]
    by_cases hr : r.val < j
    · simp [hr]
    · simp [hr, hzero r.val (by omega) r.isLt]

end GaussFacts

end MatrixBase

namespace MatrixBase

open MatrixExpression

section GaussFacts2

variable {D K : Type} [MatrixExpression D K] [LinearOrderedField K]

set_option linter.unusedSectionVars false

theorem toMatrix_scale (n p : Nat) (hp : p < n) (f : K) (d m : D)
    (hg : ∀ r c, get m r c = if r = p ∧ c < n then get d r c * f else get d r c) :
    toMatrix n m
      = (toMatrix n d).updateRow ⟨p, hp⟩ (f • (toMatrix n d) ⟨p, hp⟩) := by
  ext r c
  simp only [toMatrix, Matrix.of_apply, Matrix.updateRow_apply, hg, Pi.smul_apply, smul_eq_mul]
  by_cases hr : r = ⟨p, hp⟩
  · subst hr
    simp [c.isLt, mul_comm]
  · have hr2 : r.val ≠ p := fun h => hr (Fin.ext h)
    simp [hr, hr2]

theorem det_toMatrix_scale (n p : Nat) (hp : p < n) (f : K) (d m : D)
    (hg : ∀ r c, get m r c = if r = p ∧ c < n then get d r c * f else get d r c) :
    (toMatrix n m).det = f * (toMatrix n d).det := by
  rw [toMatrix_scale n p hp f d m hg, Matrix.det_updateRow_smul, Matrix.updateRow_eq_self]

theorem toMatrix_swap (n p q : Nat) (hp : p < n) (hq : q < n) (d m : D)
    (hg : ∀ r c, get m r c
        = if c < n then (if r = q then get d p c else if r = p then get d q c else get d r c)
          else get d r c) :
    toMatrix n m
      = (toMatrix n d).submatrix (Equiv.swap (⟨p, hp⟩ : Fin n) ⟨q, hq⟩) id := by
  ext r c
  simp only [toMatrix, Matrix.of_apply, Matrix.submatrix_apply, id, hg, c.isLt, if_true]
  by_cases hrq : r = ⟨q, hq⟩
  · subst hrq
    simp
  · have hrq2 : r.val ≠ q := fun h => hrq (Fin.ext h)
    by_cases hrp : r = ⟨p, hp⟩
    · subst hrp
      simp [hrq2]
    · have hrp2 : r.val ≠ p := fun h => hrp (Fin.ext h)
      rw [Equiv.swap_apply_of_ne_of_ne hrp hrq]
      simp [hrq2, hrp2]

theorem det_toMatrix_swap (n p q : Nat) (hp : p < n) (hq : q < n) (hpq : p ≠ q) (d m : D)
    (hg : ∀ r c, get m r c
        = if c < n then (if r = q then get d p c else if r = p then get d q c else get d r c)
          else get d r c) :
    (toMatrix n m).det = -(toMatrix n d).det := by
  have hne : (⟨p, hp⟩ : Fin n) ≠ ⟨q, hq⟩ := by
    intro h
    exact hpq (congrArg Fin.val h)
  rw [toMatrix_swap n p q hp hq d m hg, Matrix.det_permute, Equiv.Perm.sign_swap hne]
  simp

theorem det_toMatrix_combine (n i p : Nat) (hi : i < n) (hp : p < n) (hip : i ≠ p) (f : K)
    (d m : D)
    (hg : ∀ r c, get m r c
        = if r = i ∧ c < n then 1 * get d i c + f * get d p c else get d r c) :
    (toMatrix n m).det = (toMatrix n d).det := by
  have hne : (⟨i, hi⟩ : Fin n) ≠ ⟨p, hp⟩ := by
    intro h
    exact hip (congrArg Fin.val h)
  have hm : toMatrix n m
      = (toMatrix n d).updateRow ⟨i, hi⟩
          ((toMatrix n d) ⟨i, hi⟩ + f • (toMatrix n d) ⟨p, hp⟩) := by
    ext r c
    simp only [toMatrix, Matrix.of_apply, Matrix.updateRow_apply, hg, Pi.add_apply,
      Pi.smul_apply, smul_eq_mul]
    by_cases hr : r = ⟨i, hi⟩
    · subst hr
      simp [c.isLt]
    · have hr2 : r.val ≠ i := fun h => hr (Fin.ext h)
      simp [hr, hr2]
  rw [hm, Matrix.det_updateRow_add_smul_self _ hne]

theorem eliminate_fold (n j lp : Nat) (hlp : lp < n) (d : D)
    (hL : Line d = n) (hC : Column d = n) (k : Nat) (hk : k ≤ n) :
    ∃ m, (List.range k).foldl
        (fun (acc : Except Exception Unit × D) i =>
          match acc with
          | (.error e, m) => (.error e, m)
          | (.ok _, m) =>
              if i ≠ lp then CombineLines m i 1 lp (-(get m i j))
              else (.ok (), m))
        (.ok (), d) = (.ok (), m) ∧
      Line m = n ∧ Column m = n ∧
      (∀ r c, get m r c
        = if r < k ∧ r ≠ lp ∧ c < n then get d r c + -(get d r j) * get d lp c
          else get d r c) ∧
      (toMatrix n m).det = (toMatrix n d).det := by
  induction k with
  | zero =>
      refine ⟨d, by simp, hL, hC, ?_, rfl⟩
      intro r c
      simp
  | succ k ih =>
      obtain ⟨m, hfold, hLm, hCm, hgm, hdet⟩ := ih (by omega)
      rw [List.range_succ, List.foldl_append, hfold]
      simp only [List.foldl_cons, List.foldl_nil]
      by_cases hklp : k = lp
      · subst hklp
        refine ⟨m, by simp, hLm, hCm, ?_, hdet⟩
        intro r c
        rw [hgm]
        by_cases hr : r = k
        · subst hr
          simp
        · have h1 : r < k + 1 ↔ r < k := by omega
          simp [h1]
      · have hk1 : k < Line m := by omega
        have hlp1 : lp < Line m := by omega
        obtain ⟨m2, hcomb, hL2, hC2, hg2⟩ :=
          CombineLines_of_lt (1 : K) (-(get m k j)) hk1 hlp1
        refine ⟨m2, by simp [hklp, hcomb], by omega, by omega, ?_, ?_⟩
        · intro r c
          rw [hg2, hCm]
          by_cases hr : r = k
          · subst hr
            by_cases hc : c < n
            · have e1 : get m r c = get d r c := by rw [hgm]; simp
              have e2 : get m r j = get d r j := by rw [hgm]; simp
              have e3 : get m lp c = get d lp c := by rw [hgm]; simp
              simp [hc, hklp, e1, e2, e3]
            · rw [hgm]
              simp [hc]
          · have h1 : r < k + 1 ↔ r < k := by omega
            simp only [hr, false_and, if_false]
            rw [hgm r c]
            simp [h1]
        · rw [← hdet]
          apply det_toMatrix_combine n k lp (by omega) hlp hklp (-(get m k j)) m m2
          intro r c
          rw [hg2, hCm]

theorem eliminate_spec (n j lp : Nat) (hlp : lp < n) (d : D)
    (hL : Line d = n) (hC : Column d = n) :
    ∃ m, eliminate d j lp n = (.ok (), m) ∧ Line m = n ∧ Column m = n ∧
      (∀ r c, get m r c
        = if r < n ∧ r ≠ lp ∧ c < n then get d r c + -(get d r j) * get d lp c
          else get d r c) ∧
      (toMatrix n m).det = (toMatrix n d).det :=
  eliminate_fold n j lp hlp d hL hC n (le_refl n)

end GaussFacts2

end MatrixBase

namespace MatrixBase

open MatrixExpression

section GaussFacts3

variable {D K : Type} [MatrixExpression D K] [LinearOrderedField K]

set_option linter.unusedSectionVars false

theorem gaussColumn_eq (L j : Nat) (st : GaussState D K) (d1 d2 d3 : D) (perms : Nat)
    (hne : get st.d (findPivot st.d j st.linepivot L).2 j ≠ 0)
    (hscale : ScaleLine st.d (findPivot st.d j st.linepivot L).2
        (1 / get st.d (findPivot st.d j st.linepivot L).2 j) = (.ok (), d1))
    (hswap : (if (findPivot st.d j st.linepivot L).2 ≠ j
        then (SwapLines d1 (findPivot st.d j st.linepivot L).2 st.linepivot,
          st.permutations + 1)
        else ((.ok (), d1), st.permutations)) = ((Except.ok (), d2), perms))
    (helim : eliminate d2 j st.linepivot L = (.ok (), d3)) :
    gaussColumn L st j
      = Flow.next { d := d3, linepivot := st.linepivot + 1, permutations := perms,
                    pseudodet := st.pseudodet * get st.d (findPivot st.d j st.linepivot L).2 j }
      := by
  unfold gaussColumn
  simp only [hne, if_false, hscale, hswap, helim]

theorem unit_columns_step (n j : Nat) (hj : j < n) (d2 d3 : D)
    (h1 : ∀ r c, r < n → c < j → get d2 r c = if r = c then (1 : K) else 0)
    (h2 : get d2 j j = 1)
    (h3 : ∀ r c, get d3 r c
        = if r < n ∧ r ≠ j ∧ c < n then get d2 r c + -(get d2 r j) * get d2 j c
          else get d2 r c) :
    ∀ r c, r < n → c < j + 1 → get d3 r c = if r = c then (1 : K) else 0 := by
  intro r c hr hc
  rw [h3]
  have hcn : c < n := by omega
  by_cases hrj : r = j
  · subst hrj
    simp only [ne_eq, not_true_eq_false, false_and, and_false, if_false]
    by_cases hcr : c = r
    · subst hcr
      simp [h2]
    · rw [h1 r c hr (by omega)]
  · simp only [hr, hrj, hcn, ne_eq, not_false_eq_true, and_self, if_true]
    by_cases hcj : c = j
    · subst hcj
      rw [h2]
      simp [hrj]
    · have hcj2 : c < j := by omega
      rw [h1 r c hr hcj2, h1 j c hj hcj2]
      have : ¬ j = c := fun h => hcj h.symm
      simp [this]

theorem gaussColumn_spec (n j : Nat) (hj : j < n) (detM : K) (hdetM : detM ≠ 0)
    (st : GaussState D K) (hinv : GaussInv n detM j st) :
    ∃ st1, gaussColumn n st j = Flow.next st1 ∧ GaussInv n detM (j + 1) st1 := by
  obtain ⟨hL, hC, hlp, hunit, hdet⟩ := hinv
  obtain ⟨d0, lp, perms, pdet⟩ := st
  simp only at hL hC hlp hunit hdet
  subst hlp
  have hdetA : (toMatrix n d0).det ≠ 0 := by
    intro h0
    apply hdetM
    rw [hdet, h0, mul_zero]
  obtain ⟨hp1, hp2, hp3⟩ := findPivot_spec d0 lp lp n
    (exists_pivot_of_det_ne_zero n lp hj d0 hunit hdetA)
  have hpL : (findPivot d0 lp lp n).2 < Line d0 := by omega
  obtain ⟨d1, hscale, hL1, hC1, hg1⟩ :=
    ScaleLine_of_lt (1 / get d0 (findPivot d0 lp lp n).2 lp) hpL
  rw [hC] at hg1
  have hdet1 := det_toMatrix_scale n _ hp2 _ d0 d1 hg1
  have hrow_p : ∀ c, c < lp → get d0 (findPivot d0 lp lp n).2 c = 0 := by
    intro c hc
    rw [hunit _ c hp2 hc]
    have : ¬ (findPivot d0 lp lp n).2 = c := by omega
    simp [this]
  have hF1_1 : ∀ r c, r < n → c < lp → get d1 r c = if r = c then (1 : K) else 0 := by
    intro r c hr hc
    rw [hg1]
    by_cases hrp : r = (findPivot d0 lp lp n).2
    · have hcn : c < n := by omega
      simp only [hrp, hcn, and_self, if_true]
      rw [hrow_p c hc, zero_mul]
      have : ¬ (findPivot d0 lp lp n).2 = c := by omega
      simp [this]
    · simp only [hrp, false_and, if_false]
      exact hunit r c hr hc
  have hpj_1 : get d1 (findPivot d0 lp lp n).2 lp = 1 := by
    rw [hg1]
    simp only [hj, and_self, if_true]
    field_simp
  by_cases hpj : (findPivot d0 lp lp n).2 = lp
  · -- no exchange of rows
    have hswap : (if (findPivot d0 lp lp n).2 ≠ lp
        then (SwapLines d1 (findPivot d0 lp lp n).2 lp, perms + 1)
        else ((Except.ok (), d1), perms))
          = ((Except.ok (), d1), perms) := by
      simp [hpj]
    obtain ⟨d3, helim, hL3, hC3, hg3, hdet3⟩ :=
      eliminate_spec n lp lp hj d1 (by omega) (by omega)
    refine ⟨_, gaussColumn_eq n lp ⟨d0, lp, perms, pdet⟩ d1 d1 d3 perms hp3 hscale hswap
      helim, ?_⟩
    refine ⟨hL3, hC3, rfl, ?_, ?_⟩
    · exact unit_columns_step n lp hj d1 d3 hF1_1 (by rw [hpj] at hpj_1; exact hpj_1) hg3
    · show detM = (-1) ^ perms * (pdet * get d0 (findPivot d0 lp lp n).2 lp)
          * (toMatrix n d3).det
      rw [hdet3, hdet1, hdet]
      field_simp
      ring
  · -- the rows `maxpos` and `linepivot` are exchanged
    have hp1L : (findPivot d0 lp lp n).2 < Line d1 := by omega
    have hj1L : lp < Line d1 := by omega
    obtain ⟨d2, hsw, hL2, hC2, hg2⟩ := SwapLines_of_lt hp1L hj1L
    rw [hC1, hC] at hg2
    have hswap : (if (findPivot d0 lp lp n).2 ≠ lp
        then (SwapLines d1 (findPivot d0 lp lp n).2 lp, perms + 1)
        else ((Except.ok (), d1), perms))
          = ((Except.ok (), d2), perms + 1) := by
      simp [hpj, hsw]
    have hdet2 := det_toMatrix_swap n _ lp hp2 hj hpj d1 d2 hg2
    obtain ⟨d3, helim, hL3, hC3, hg3, hdet3⟩ :=
      eliminate_spec n lp lp hj d2 (by omega) (by omega)
    have hF1_2 : ∀ r c, r < n → c < lp → get d2 r c = if r = c then (1 : K) else 0 := by
      intro r c hr hc
      have hcn : c < n := by omega
      rw [hg2]
      simp only [hcn, if_true]
      by_cases hrj : r = lp
      · simp only [hrj, if_true]
        rw [hF1_1 _ c hp2 hc]
        have h1 : ¬ (findPivot d0 lp lp n).2 = c := by omega
        have h2 : ¬ lp = c := by omega
        simp [h1, h2]
      · simp only [hrj, if_false]
        by_cases hrp : r = (findPivot d0 lp lp n).2
        · simp only [hrp, if_true]
          rw [hF1_1 lp c hj hc]
          have h1 : ¬ lp = c := by omega
          have h2 : ¬ (findPivot d0 lp lp n).2 = c := by omega
          simp [h1, h2]
        · simp only [hrp, if_false]
          exact hF1_1 r c hr hc
    have hjj_2 : get d2 lp lp = 1 := by
      rw [hg2]
      simp only [hj, if_true]
      exact hpj_1
    refine ⟨_, gaussColumn_eq n lp ⟨d0, lp, perms, pdet⟩ d1 d2 d3 (perms + 1) hp3 hscale
      hswap helim, ?_⟩
    refine ⟨hL3, hC3, rfl, ?_, ?_⟩
    · exact unit_columns_step n lp hj d2 d3 hF1_2 hjj_2 hg3
    · show detM = (-1) ^ (perms + 1) * (pdet * get d0 (findPivot d0 lp lp n).2 lp)
          * (toMatrix n d3).det
      rw [hdet3, hdet2, hdet1, hdet, pow_succ]
      field_simp
      ring

end GaussFacts3

end MatrixBase

namespace MatrixBase

open MatrixExpression

section GaussFacts4

variable {D K : Type} [MatrixExpression D K] [LinearOrderedField K]

set_option linter.unusedSectionVars false

theorem gaussLoop_spec (n : Nat) (detM : K) (hdetM : detM ≠ 0) (st : GaussState D K)
    (hinv : GaussInv n detM 0 st) (k : Nat) (hk : k ≤ n) :
    ∃ st1, gaussLoop n (List.range k) (Flow.next st) = Flow.next st1 ∧
      GaussInv n detM k st1 := by
  induction k with
  | zero => exact ⟨st, rfl, hinv⟩
  | succ k ih =>
      obtain ⟨st1, hloop, hinv1⟩ := ih (by omega)
      obtain ⟨st2, hcol, hinv2⟩ := gaussColumn_spec n k (by omega) detM hdetM st1 hinv1
      refine ⟨st2, ?_, hinv2⟩
      unfold gaussLoop at hloop ⊢
      rw [List.range_succ, List.foldl_append, hloop]
      simp only [List.foldl_cons, List.foldl_nil]
      exact hcol

theorem toMatrix_eq_one (n : Nat) (m : D)
    (h : ∀ r c, r < n → c < n → get m r c = if r = c then (1 : K) else 0) :
    toMatrix n m = 1 := by
  ext r c
  simp only [toMatrix, Matrix.of_apply, h r.val c.val r.isLt c.isLt, Matrix.one_apply]
  by_cases hrc : r = c
  · subst hrc
    simp
  · have : r.val ≠ c.val := fun h => hrc (Fin.ext h)
    simp [hrc, this]

theorem neg_one_pow_eq_ite (k : Nat) :
    ((-1 : K)) ^ k = if k % 2 = 0 then 1 else -1 := by
  by_cases h : k % 2 = 0
  · rw [if_pos h]
    exact Even.neg_one_pow (Nat.even_iff.2 h)
  · rw [if_neg h]
    exact Odd.neg_one_pow (Nat.odd_iff.2 (by omega))

theorem GaussElimination_of_det_ne_zero (n : Nat) (d : D) (hL : Line d = n)
    (hC : Column d = n) (hdet : (toMatrix n d).det ≠ 0) :
    ∃ st : GaussState D K,
      gaussLoop n (List.range n) (Flow.next (GaussState.start d)) = Flow.next st ∧
      GaussElimination d = (.ok (toMatrix n d).det, st.d) ∧
      (toMatrix n d).det = (-1) ^ st.permutations * st.pseudodet ∧
      Line st.d = n ∧ Column st.d = n ∧
      (∀ r c, r < n → c < n → get st.d r c = if r = c then (1 : K) else 0) := by
  have hinv0 : GaussInv n (toMatrix n d).det 0 (GaussState.start d : GaussState D K) := by
    refine ⟨hL, hC, rfl, ?_, ?_⟩
    · intro r c _ hc
      omega
    · simp [GaussState.start]
  obtain ⟨st, hloop, hinv⟩ := gaussLoop_spec n _ hdet _ hinv0 n (le_refl n)
  have hone : toMatrix n st.d = 1 := toMatrix_eq_one n st.d hinv.unit_columns
  have hval : (toMatrix n d).det = (-1) ^ st.permutations * st.pseudodet := by
    have := hinv.det_eq
    rw [hone, Matrix.det_one, mul_one] at this
    exact this
  refine ⟨st, hloop, ?_, hval, hinv.line_eq, hinv.column_eq, hinv.unit_columns⟩
  unfold GaussElimination
  simp only [hL, hC, min_self, hloop]
  rw [hval, neg_one_pow_eq_ite]

end GaussFacts4

end MatrixBase

namespace MatrixBase

open MatrixExpression

section MatrixClaims

variable {D T : Type} [MatrixExpression D T]

/-- C16. Each of `SwapLines(i, j)`, `ScaleLine(idx, f)` and
`CombineLines(idx1, f1, idx2, f2)` either has a row index that is `>= Line()`,
and then throws `out_of_range` and leaves the matrix as it was, or has all its
row indices below `Line()`, and then returns without throwing, keeps the
dimensions, and leaves every row other than its target rows (`i` and `j`,
`idx`, `idx1`) unchanged. -/
theorem row_operations_range_check [Mul T] [Add T] (d : D) :
    (∀ i j : Nat,
      ((Line d ≤ i ∨ Line d ≤ j) ∧
        SwapLines d i j = (.error (.out_of_range "Index out of range."), d)) ∨
      ((i < Line d ∧ j < Line d) ∧
        ∃ m, SwapLines d i j = (.ok (), m) ∧ Line m = Line d ∧ Column m = Column d ∧
          ∀ r c, r ≠ i → r ≠ j → get m r c = get d r c)) ∧
    (∀ (idx : Nat) (f : T),
      (Line d ≤ idx ∧
        ScaleLine d idx f = (.error (.out_of_range "Index out of range."), d)) ∨
      (idx < Line d ∧
        ∃ m, ScaleLine d idx f = (.ok (), m) ∧ Line m = Line d ∧ Column m = Column d ∧
          ∀ r c, r ≠ idx → get m r c = get d r c)) ∧
    (∀ (idx1 : Nat) (f1 : T) (idx2 : Nat) (f2 : T),
      ((Line d ≤ idx1 ∨ Line d ≤ idx2) ∧
        CombineLines d idx1 f1 idx2 f2
          = (.error (.out_of_range "Index out of range."), d)) ∨
      ((idx1 < Line d ∧ idx2 < Line d) ∧
        ∃ m, CombineLines d idx1 f1 idx2 f2 = (.ok (), m) ∧ Line m = Line d ∧
          Column m = Column d ∧ ∀ r c, r ≠ idx1 → get m r c = get d r c)) := by
  refine ⟨?_, ?_, ?_⟩
  · intro i j
    by_cases h : Line d ≤ i ∨ Line d ≤ j
    · exact Or.inl ⟨h, SwapLines_of_ge h⟩
    · have hi : i < Line d := by omega
      have hj : j < Line d := by omega
      obtain ⟨m, hm, hL, hC, hg⟩ := SwapLines_of_lt hi hj
      refine Or.inr ⟨⟨hi, hj⟩, m, hm, hL, hC, ?_⟩
      intro r c hri hrj
      rw [hg]
      simp [hri, hrj]
  · intro idx f
    by_cases h : Line d ≤ idx
    · exact Or.inl ⟨h, ScaleLine_of_ge f h⟩
    · have hi : idx < Line d := by omega
      obtain ⟨m, hm, hL, hC, hg⟩ := ScaleLine_of_lt f hi
      refine Or.inr ⟨hi, m, hm, hL, hC, ?_⟩
      intro r c hr
      rw [hg]
      simp [hr]
  · intro idx1 f1 idx2 f2
    by_cases h : Line d ≤ idx1 ∨ Line d ≤ idx2
    · exact Or.inl ⟨h, CombineLines_of_ge f1 f2 h⟩
    · have h1 : idx1 < Line d := by omega
      have h2 : idx2 < Line d := by omega
      obtain ⟨m, hm, hL, hC, hg⟩ := CombineLines_of_lt f1 f2 h1 h2
      refine Or.inr ⟨⟨h1, h2⟩, m, hm, hL, hC, ?_⟩
      intro r c hr
      rw [hg]
      simp [hr]

end MatrixClaims

section GaussClaims

variable {D K : Type} [MatrixExpression D K] [LinearOrderedField K]

/-- C13. For every invertible matrix of order `n` over an ordered field,
`GaussElimination()` runs its loop through all the `n` columns (so it neither
takes the early `return T(0)` nor lets an `out_of_range` escape from a row
operation), returns the determinant of the matrix, which is `pseudodet`
multiplied by `-1` to the number of row exchanges, and leaves the identity
matrix of order `n` in the cells. -/
theorem GaussElimination_invertible (n : Nat) (d : D) (hL : Line d = n) (hC : Column d = n)
    (hinv : IsUnit (toMatrix n d)) :
    ∃ st : GaussState D K,
      gaussLoop n (List.range n) (Flow.next (GaussState.start d)) = Flow.next st ∧
      GaussElimination d = (.ok (toMatrix n d).det, st.d) ∧
      (toMatrix n d).det = (-1) ^ st.permutations * st.pseudodet ∧
      Line st.d = n ∧ Column st.d = n ∧ toMatrix n st.d = 1 ∧
      (∀ r c, r < n → c < n → get st.d r c = if r = c then (1 : K) else 0) := by
  have hdet : (toMatrix n d).det ≠ 0 :=
    ((Matrix.isUnit_iff_isUnit_det _).1 hinv).ne_zero
  obtain ⟨st, h1, h2, h3, h4, h5, h6⟩ := GaussElimination_of_det_ne_zero n d hL hC hdet
  exact ⟨st, h1, h2, h3, h4, h5, toMatrix_eq_one n st.d h6, h6⟩

/-- C13, witness: the matrix with rows `(1, 2)` and `(3, 4)` over the rational
numbers, of determinant `-2`. -/
theorem GaussElimination_invertible_witness :
    IsUnit (toMatrix 2 (Grid.ofRows 2 2 [[1, 2], [3, 4]] : Grid ℚ)) ∧
    ∃ st : GaussState (Grid ℚ) ℚ,
      gaussLoop 2 (List.range 2)
        (Flow.next (GaussState.start (Grid.ofRows 2 2 [[1, 2], [3, 4]] : Grid ℚ)))
          = Flow.next st ∧
      GaussElimination (Grid.ofRows 2 2 [[1, 2], [3, 4]] : Grid ℚ)
        = (.ok (toMatrix 2 (Grid.ofRows 2 2 [[1, 2], [3, 4]] : Grid ℚ)).det, st.d) ∧
      (toMatrix 2 (Grid.ofRows 2 2 [[1, 2], [3, 4]] : Grid ℚ)).det
        = (-1) ^ st.permutations * st.pseudodet ∧
      Line st.d = 2 ∧ Column st.d = 2 ∧ toMatrix 2 st.d = 1 ∧
      (∀ r c, r < 2 → c < 2 → get st.d r c = if r = c then (1 : ℚ) else 0) := by
  have hunit : IsUnit (toMatrix 2 (Grid.ofRows 2 2 [[1, 2], [3, 4]] : Grid ℚ)) := by
    rw [Matrix.isUnit_iff_isUnit_det, Matrix.det_fin_two]
    simp [toMatrix, Grid.ofRows, MatrixExpression.get]
    norm_num
  exact ⟨hunit, GaussElimination_invertible 2 _ rfl rfl hunit⟩

/-- C11, failing input. On the singular matrix with rows `(1, 1)` and `(0, 0)`,
whose determinant is `0`, `Det()` returns `-1`: in the second column no row
from `linepivot` on has a non-zero entry, `maxpos` keeps its initial value `0`,
and the test `Derived()(maxpos, j) == 0` reads row `0`, above the pivot line. -/
theorem Det_singular_returns_minus_one :
    Det (Grid.ofRows 2 2 [[1, 1], [0, 0]] : Grid ℚ) = .ok (-1) ∧
    (toMatrix 2 (Grid.ofRows 2 2 [[1, 1], [0, 0]] : Grid ℚ)).det = 0 := by
  constructor
  · have h : (Det (Grid.ofRows 2 2 [[1, 1], [0, 0]] : Grid ℚ)).toOption = some (-1) := by
      decide!
    cases hd : Det (Grid.ofRows 2 2 [[1, 1], [0, 0]] : Grid ℚ) with
    | error e =>
        rw [hd] at h
        simp [Except.toOption] at h
    | ok v =>
        rw [hd] at h
        simp only [Except.toOption, Option.some.injEq] at h
        rw [h]
  · rw [Matrix.det_fin_two]
    simp [toMatrix, Grid.ofRows, MatrixExpression.get]

end GaussClaims

end MatrixBase

/-! ## Theorems of part 3 (`TanNetwork.cpp`) -/

namespace TanNetwork

namespace Network

variable {F : Type}

theorem back_concat (lut : List Nat) (y : Nat) : back (lut ++ [y]) = y := by
  simp [back]

theorem lutInv_concat {lut : List Nat} (h : LutInv lut) {y : Nat} (hy : back lut ≤ y) :
    LutInv (lut ++ [y]) := by
  refine ⟨by simp, ?_, ?_, ?_⟩
  · rw [List.head?_append_of_ne_nil _ h.ne_nil]
    exact h.head_zero
  · rw [List.pairwise_append]
    refine ⟨h.sorted, List.pairwise_singleton _ _, ?_⟩
    intro a ha b hb
    rw [List.mem_singleton] at hb
    subst hb
    exact le_trans (h.le_back a ha) hy
  · intro x hx
    rw [back_concat]
    rw [List.mem_append, List.mem_singleton] at hx
    rcases hx with hx | hx
    · exact le_trans (h.le_back x hx) hy
    · exact le_of_eq hx

theorem pushBackCopies_spec (k : Nat) :
    ∀ {lut : List Nat}, LutInv lut →
      LutInv (pushBackCopies k lut) ∧ back (pushBackCopies k lut) = back lut ∧
        (pushBackCopies k lut).length = lut.length + k := by
  induction k with
  | zero =>
      intro lut h
      exact ⟨h, rfl, rfl⟩
  | succ k ih =>
      intro lut h
      have h1 : LutInv (lut ++ [back lut]) := lutInv_concat h (le_refl _)
      obtain ⟨h2, h3, h4⟩ := ih h1
      refine ⟨h2, ?_, ?_⟩
      · show back (pushBackCopies k (lut ++ [back lut])) = back lut
        rw [h3, back_concat]
      · show (pushBackCopies k (lut ++ [back lut])).length = lut.length + (k + 1)
        rw [h4, List.length_append, List.length_singleton]
        omega

theorem lutLoop_spec (bound : Nat) (rest : List (Edge F)) :
    ∀ (lastVal pos : Nat) (lut : List Nat), LutInv lut → back lut < pos →
      lastVal ≤ bound →
      (∀ e ∈ rest, lastVal ≤ e.Node1Idx ∧ e.Node1Idx ≤ bound) →
      rest.Pairwise edgeLE →
      LutInv (lutLoop lastVal pos rest lut) ∧
        back (lutLoop lastVal pos rest lut) < pos + rest.length ∧
        (lutLoop lastVal pos rest lut).length + lastVal ≤ lut.length + bound := by
  induction rest with
  | nil =>
      intro lastVal pos lut h hb hl _ _
      exact ⟨h, by simpa [lutLoop] using hb, by simp [lutLoop]; omega⟩
  | cons e rest ih =>
      intro lastVal pos lut h hb hl hkeys hsorted
      rw [List.pairwise_cons] at hsorted
      obtain ⟨hhead, hsorted⟩ := hsorted
      have he := hkeys e (List.mem_cons_self _ _)
      by_cases heq : e.Node1Idx = lastVal
      · have hrest : ∀ x ∈ rest, lastVal ≤ x.Node1Idx ∧ x.Node1Idx ≤ bound :=
          fun x hx => hkeys x (List.mem_cons_of_mem _ hx)
        obtain ⟨h1, h2, h3⟩ := ih lastVal (pos + 1) lut h (by omega) hl hrest hsorted
        simp only [lutLoop, heq, if_true, List.length_cons]
        exact ⟨h1, by omega, h3⟩
      · obtain ⟨hc1, hc2, hc3⟩ := pushBackCopies_spec (e.Node1Idx - 1 - lastVal) h
        have hinv2 : LutInv (pushBackCopies (e.Node1Idx - 1 - lastVal) lut ++ [pos]) :=
          lutInv_concat hc1 (by rw [hc2]; exact le_of_lt hb)
        have hrest : ∀ x ∈ rest, e.Node1Idx ≤ x.Node1Idx ∧ x.Node1Idx ≤ bound :=
          fun x hx => ⟨hhead x hx, (hkeys x (List.mem_cons_of_mem _ hx)).2⟩
        obtain ⟨h1, h2, h3⟩ := ih e.Node1Idx (pos + 1) _ hinv2
          (by rw [back_concat]; omega) he.2 hrest hsorted
        simp only [lutLoop, heq, if_false, List.length_cons]
        refine ⟨h1, by omega, ?_⟩
        rw [List.length_append, List.length_singleton, hc3] at h3
        omega

theorem weighEdges_spec (net : Network F) (W : Network F → Nat → Nat → F)
    (todo : List (Edge F)) :
    ∀ done : List (Edge F),
      (weighEdges net W done todo).map (fun e => (e.Node1Idx, e.Node2Idx))
        = (done ++ todo).map (fun e => (e.Node1Idx, e.Node2Idx)) := by
  induction todo with
  | nil => intro done; simp [weighEdges]
  | cons e todo ih =>
      intro done
      rw [weighEdges, ih]
      simp

theorem fillLUT_spec {lut : List Nat} (h : LutInv lut) (size : Nat)
    (hlen : lut.length ≤ size) :
    LutInv (fillLUT size lut) ∧ back (fillLUT size lut) = back lut ∧
      (fillLUT size lut).length = size := by
  obtain ⟨h1, h2, h3⟩ := pushBackCopies_spec (size - lut.length) h
  refine ⟨h1, h2, ?_⟩
  show (pushBackCopies (size - lut.length) lut).length = size
  rw [h3]
  omega

theorem lutInv_getLast? {lut : List Nat} (h : LutInv lut) :
    lut.getLast? = some (back lut) := by
  unfold back
  rw [List.getLastD_eq_getLast?]
  cases hl : lut.getLast? with
  | none => exact absurd (List.getLast?_eq_none_iff.1 hl) h.ne_nil
  | some x => rfl

end Network

end TanNetwork

namespace TanNetwork

namespace Network

variable {F : Type}

theorem GroupEdges_of_sorted (net : Network F) (first : Edge F) (rest : List (Edge F))
    (hs : net.m_Edges.insertionSort edgeLE = first :: rest) :
    GroupEdges net =
      { net with
          m_Edges := first :: rest
          m_EdgesNodeLUT := fillLUT (net.m_NodeData.length + 1)
            (lutLoop first.Node1Idx 1 rest (net.m_EdgesNodeLUT ++ [0])
              ++ [(first :: rest).length]) } := by
  unfold GroupEdges
  cases hE : net.m_Edges with
  | nil =>
      rw [hE] at hs
      simp at hs
  | cons e0 es =>
      rw [hE] at hs
      simp only [hs]

theorem GroupEdges_spec (net : Network F) (hlut : net.m_EdgesNodeLUT = [])
    (hne : net.m_Edges ≠ [])
    (hvalid : ∀ e ∈ net.m_Edges, e.Node1Idx < net.m_NodeData.length) :
    (GroupEdges net).m_Edges = net.m_Edges.insertionSort edgeLE ∧
    (GroupEdges net).m_NodeData = net.m_NodeData ∧
    LutInv (GroupEdges net).m_EdgesNodeLUT ∧
    back (GroupEdges net).m_EdgesNodeLUT = net.m_Edges.length ∧
    (GroupEdges net).m_EdgesNodeLUT.length = net.m_NodeData.length + 1 := by
  have hperm := List.perm_insertionSort edgeLE net.m_Edges
  have hsorted := List.sorted_insertionSort edgeLE net.m_Edges
  cases hs : net.m_Edges.insertionSort edgeLE with
  | nil =>
      rw [hs] at hperm
      exact absurd hperm.symm.eq_nil hne
  | cons first rest =>
      rw [hs] at hperm hsorted
      have hlen : (first :: rest).length = net.m_Edges.length := hperm.length_eq
      have hmem : ∀ e ∈ first :: rest, e.Node1Idx < net.m_NodeData.length :=
        fun e he => hvalid e (hperm.mem_iff.1 he)
      have hfirst := hmem first (List.mem_cons_self _ _)
      obtain ⟨hhead, hsorted'⟩ := List.pairwise_cons.1 hsorted
      have hinv0 : LutInv ([0] : List Nat) := by
        refine ⟨by simp, rfl, List.pairwise_singleton _ _, ?_⟩
        intro x hx
        rw [List.mem_singleton] at hx
        subst hx
        exact Nat.zero_le _
      have hkeys : ∀ e ∈ rest, first.Node1Idx ≤ e.Node1Idx ∧
          e.Node1Idx ≤ net.m_NodeData.length - 1 := by
        intro e he
        have := hmem e (List.mem_cons_of_mem _ he)
        exact ⟨hhead e he, by omega⟩
      obtain ⟨h1, h2, h3⟩ := lutLoop_spec (net.m_NodeData.length - 1) rest first.Node1Idx 1
        [0] hinv0 (by simp [back]) (by omega) hkeys hsorted'
      have hinv1 : LutInv (lutLoop first.Node1Idx 1 rest [0] ++ [(first :: rest).length]) :=
        lutInv_concat h1 (by simp only [List.length_cons]; omega)
      have hlen1 : (lutLoop first.Node1Idx 1 rest [0] ++ [(first :: rest).length]).length
          ≤ net.m_NodeData.length + 1 := by
        rw [List.length_append, List.length_singleton]
        simp only [List.length_singleton] at h3
        omega
      obtain ⟨h4, h5, h6⟩ := fillLUT_spec hinv1 (net.m_NodeData.length + 1) hlen1
      rw [GroupEdges_of_sorted net first rest hs, hlut]
      refine ⟨rfl, rfl, h4, ?_, h6⟩
      show back (fillLUT (net.m_NodeData.length + 1)
        (lutLoop first.Node1Idx 1 rest [0] ++ [(first :: rest).length])) = net.m_Edges.length
      rw [h5, back_concat, hlen]

theorem weighEdges_length (net : Network F) (W : Network F → Nat → Nat → F)
    (edges : List (Edge F)) : (weighEdges net W [] edges).length = edges.length := by
  have h := congrArg List.length (weighEdges_spec net W edges [])
  simpa using h

theorem weighEdges_mem (net : Network F) (W : Network F → Nat → Nat → F)
    (edges : List (Edge F)) (e : Edge F) (he : e ∈ weighEdges net W [] edges) :
    ∃ e0 ∈ edges, e0.Node1Idx = e.Node1Idx ∧ e0.Node2Idx = e.Node2Idx := by
  have h := weighEdges_spec net W edges []
  have hm : (e.Node1Idx, e.Node2Idx)
      ∈ (weighEdges net W [] edges).map (fun e => (e.Node1Idx, e.Node2Idx)) :=
    List.mem_map_of_mem _ he
  rw [h, List.nil_append, List.mem_map] at hm
  obtain ⟨e0, he0, heq⟩ := hm
  refine ⟨e0, he0, ?_, ?_⟩
  · exact congrArg Prod.fst heq
  · exact congrArg Prod.snd heq

theorem ImportEdges_spec (net : Network F) (edges : List (Edge F))
    (W : Network F → Nat → Nat → F) (hlut : net.m_EdgesNodeLUT = [])
    (hne : edges ≠ [])
    (hvalid : ∀ e ∈ edges, e.Node1Idx < net.m_NodeData.length) :
    (ImportEdges net edges W).m_NodeData = net.m_NodeData ∧
    (ImportEdges net edges W).m_Edges.length = edges.length ∧
    LutInv (ImportEdges net edges W).m_EdgesNodeLUT ∧
    back (ImportEdges net edges W).m_EdgesNodeLUT = edges.length ∧
    (ImportEdges net edges W).m_EdgesNodeLUT.length = net.m_NodeData.length + 1 := by
  have hlen := weighEdges_length net W edges
  have hne2 : weighEdges net W [] edges ≠ [] := by
    intro h
    rw [h] at hlen
    exact hne (List.length_eq_zero.1 hlen.symm)
  obtain ⟨h1, h2, h3, h4, h5⟩ := GroupEdges_spec
    ({ net with m_Edges := weighEdges net W [] edges } : Network F) hlut hne2
    (by
      intro e he
      obtain ⟨e0, he0, h1, _⟩ := weighEdges_mem net W edges e he
      rw [← h1]
      exact hvalid e0 he0)
  refine ⟨h2, ?_, h3, ?_, h5⟩
  · show (GroupEdges _).m_Edges.length = edges.length
    rw [h1, (List.perm_insertionSort edgeLE _).length_eq]
    exact hlen
  · exact h4.trans hlen

end Network

end TanNetwork

namespace TanNetwork

namespace Network

variable {F : Type}

theorem ImportEdges_mem (net : Network F) (edges : List (Edge F))
    (W : Network F → Nat → Nat → F) (hlut : net.m_EdgesNodeLUT = []) (hne : edges ≠ [])
    (hvalid : ∀ e ∈ edges, e.Node1Idx < net.m_NodeData.length)
    (e : Edge F) (he : e ∈ (ImportEdges net edges W).m_Edges) :
    ∃ e0 ∈ edges, e0.Node1Idx = e.Node1Idx ∧ e0.Node2Idx = e.Node2Idx := by
  have hlen := weighEdges_length net W edges
  have hne2 : weighEdges net W [] edges ≠ [] := by
    intro h
    rw [h] at hlen
    exact hne (List.length_eq_zero.1 hlen.symm)
  obtain ⟨h1, _⟩ := GroupEdges_spec
    ({ net with m_Edges := weighEdges net W [] edges } : Network F) hlut hne2
    (by
      intro x hx
      obtain ⟨e0, he0, h1, _⟩ := weighEdges_mem net W edges x hx
      rw [← h1]
      exact hvalid e0 he0)
  have he2 : e ∈ (GroupEdges ({ net with m_Edges := weighEdges net W [] edges } :
      Network F)).m_Edges := he
  rw [h1] at he2
  exact weighEdges_mem net W edges e ((List.perm_insertionSort edgeLE _).mem_iff.1 he2)

theorem CreateNode_m_NodeData (net : Network F) (node : NodeData F) :
    (CreateNode net node).2.m_NodeData = net.m_NodeData ++ [node] := rfl

theorem CreateNode_m_IdNodeIndex (net : Network F) (node : NodeData F) :
    (CreateNode net node).2.m_IdNodeIndex
      = Function.update net.m_IdNodeIndex node.Id (some net.m_NodeData.length) := by
  simp [CreateNode]

section NetworkClaims

/-- C14. After `ImportEdges` with a non-empty edge set on a network that has
`N` nodes and an empty lookup table, every edge endpoint being below `N`, the
table `m_EdgesNodeLUT` has `N + 1` entries, starts with `0`, is non-decreasing
and ends with the number of edges; for every node `n < N` the two reads of
`Neighboors()` are inside the table, and for every `idx < Size()` the read
`m_Edges[m_Begin + idx]` of `operator[]` is inside `m_Edges` and yields a node
index below `N`. -/
theorem lookup_table_shape (net : Network F) (edges : List (Edge F))
    (W : Network F → Nat → Nat → F) (hfresh : net.m_EdgesNodeLUT = [])
    (hne : edges ≠ [])
    (hvalid : ∀ e ∈ edges,
      e.Node1Idx < net.m_NodeData.length ∧ e.Node2Idx < net.m_NodeData.length) :
    (ImportEdges net edges W).m_NodeData.length = net.m_NodeData.length ∧
    (ImportEdges net edges W).m_Edges.length = edges.length ∧
    (ImportEdges net edges W).m_EdgesNodeLUT.length = net.m_NodeData.length + 1 ∧
    (ImportEdges net edges W).m_EdgesNodeLUT.head? = some 0 ∧
    (ImportEdges net edges W).m_EdgesNodeLUT.Pairwise (fun a b => a ≤ b) ∧
    (ImportEdges net edges W).m_EdgesNodeLUT.getLast? = some edges.length ∧
    ∀ n, n < net.m_NodeData.length →
      ∃ nl, Neighboors (ImportEdges net edges W) n = some nl ∧
        nl.m_Begin ≤ nl.m_End ∧ nl.m_End ≤ edges.length ∧
        ∀ idx, idx < Size nl →
          nl.m_Begin + idx < (ImportEdges net edges W).m_Edges.length ∧
          ∃ k, neighboor (ImportEdges net edges W) nl idx = some k ∧
            k < net.m_NodeData.length := by
  have hv1 : ∀ e ∈ edges, e.Node1Idx < net.m_NodeData.length := fun e he => (hvalid e he).1
  obtain ⟨hnodes, hlenE, hinv, hback, hlenL⟩ := ImportEdges_spec net edges W hfresh hne hv1
  refine ⟨by rw [hnodes], hlenE, hlenL, hinv.head_zero, hinv.sorted, ?_, ?_⟩
  · rw [lutInv_getLast? hinv, hback]
  · intro n hn
    have hn1 : n < (ImportEdges net edges W).m_EdgesNodeLUT.length := by omega
    have hn2 : n + 1 < (ImportEdges net edges W).m_EdgesNodeLUT.length := by omega
    have hle : (ImportEdges net edges W).m_EdgesNodeLUT[n]
        ≤ (ImportEdges net edges W).m_EdgesNodeLUT[n + 1] :=
      List.pairwise_iff_getElem.1 hinv.sorted n (n + 1) hn1 hn2 (by omega)
    have hend : (ImportEdges net edges W).m_EdgesNodeLUT[n + 1] ≤ edges.length := by
      rw [← hback]
      exact hinv.le_back _ (List.getElem_mem _)
    refine ⟨{ m_Begin := (ImportEdges net edges W).m_EdgesNodeLUT[n],
              m_End := (ImportEdges net edges W).m_EdgesNodeLUT[n + 1] }, ?_, hle, hend, ?_⟩
    · simp [Neighboors, List.getElem?_eq_getElem hn1, List.getElem?_eq_getElem hn2]
    · intro idx hidx
      simp only [Size] at hidx
      have hpos : (ImportEdges net edges W).m_EdgesNodeLUT[n] + idx
          < (ImportEdges net edges W).m_Edges.length := by omega
      refine ⟨hpos, (ImportEdges net edges W).m_Edges[
        (ImportEdges net edges W).m_EdgesNodeLUT[n] + idx].Node2Idx, ?_, ?_⟩
      · simp [neighboor, List.getElem?_eq_getElem hpos]
      · obtain ⟨e0, he0, _, h2⟩ := ImportEdges_mem net edges W hfresh hne hv1 _
          (List.getElem_mem hpos)
        rw [← h2]
        exact (hvalid e0 he0).2

/-- C14, witness: three nodes and the edges `2 → 1`, `0 → 1`, `0 → 2`. -/
theorem lookup_table_shape_witness :
    (ImportEdges
      (ImportNodeData (fresh : Network ℚ)
        [⟨"A", "a", 0, 0, 0⟩, ⟨"B", "b", 0, 0, 0⟩, ⟨"C", "c", 0, 0, 0⟩])
      [Edge.ctor 2 1, Edge.ctor 0 1, Edge.ctor 0 2] (fun _ _ _ => 0)).m_EdgesNodeLUT
        = [0, 0, 2, 3] ∧
    (ImportEdges
      (ImportNodeData (fresh : Network ℚ)
        [⟨"A", "a", 0, 0, 0⟩, ⟨"B", "b", 0, 0, 0⟩, ⟨"C", "c", 0, 0, 0⟩])
      [Edge.ctor 2 1, Edge.ctor 0 1, Edge.ctor 0 2] (fun _ _ _ => 0)).m_EdgesNodeLUT.length
        = 3 + 1 ∧
    (ImportEdges
      (ImportNodeData (fresh : Network ℚ)
        [⟨"A", "a", 0, 0, 0⟩, ⟨"B", "b", 0, 0, 0⟩, ⟨"C", "c", 0, 0, 0⟩])
      [Edge.ctor 2 1, Edge.ctor 0 1, Edge.ctor 0 2] (fun _ _ _ => 0)).m_EdgesNodeLUT.getLast?
        = some 3 := by
  have h := lookup_table_shape
    (ImportNodeData (fresh : Network ℚ)
      [⟨"A", "a", 0, 0, 0⟩, ⟨"B", "b", 0, 0, 0⟩, ⟨"C", "c", 0, 0, 0⟩])
    [Edge.ctor 2 1, Edge.ctor 0 1, Edge.ctor 0 2] (fun _ _ _ => 0) rfl (by simp)
    (by
      intro e he
      simp only [List.mem_cons, List.mem_singleton, List.not_mem_nil, or_false] at he
      rcases he with rfl | rfl | rfl <;> exact ⟨by decide, by decide⟩)
  exact ⟨rfl, h.2.2.1, h.2.2.2.2.2.1⟩

/-- C12, failing input. Two nodes and the single edge `1 → 0`: the lookup
table is `[0, 1, 1]`, so node 0, which starts no edge, is given one neighbour
(node 0 itself) and node 1, which starts the edge, is given none. -/
theorem neighboors_shifted :
    (ImportEdges
      (ImportNodeData (fresh : Network ℚ) [⟨"A", "a", 0, 0, 0⟩, ⟨"B", "b", 0, 0, 0⟩])
      [Edge.ctor 1 0] (fun _ _ _ => 0)).m_EdgesNodeLUT = [0, 1, 1] ∧
    Neighboors (ImportEdges
      (ImportNodeData (fresh : Network ℚ) [⟨"A", "a", 0, 0, 0⟩, ⟨"B", "b", 0, 0, 0⟩])
      [Edge.ctor 1 0] (fun _ _ _ => 0)) 0 = some { m_Begin := 0, m_End := 1 } ∧
    Size { m_Begin := 0, m_End := 1 } = 1 ∧
    neighboor (ImportEdges
      (ImportNodeData (fresh : Network ℚ) [⟨"A", "a", 0, 0, 0⟩, ⟨"B", "b", 0, 0, 0⟩])
      [Edge.ctor 1 0] (fun _ _ _ => 0)) { m_Begin := 0, m_End := 1 } 0 = some 0 ∧
    (([Edge.ctor 1 0] : List (Edge ℚ)).filter (fun e => e.Node1Idx = 0)).length = 0 ∧
    Neighboors (ImportEdges
      (ImportNodeData (fresh : Network ℚ) [⟨"A", "a", 0, 0, 0⟩, ⟨"B", "b", 0, 0, 0⟩])
      [Edge.ctor 1 0] (fun _ _ _ => 0)) 1 = some { m_Begin := 1, m_End := 1 } ∧
    Size { m_Begin := 1, m_End := 1 } = 0 ∧
    (([Edge.ctor 1 0] : List (Edge ℚ)).filter (fun e => e.Node1Idx = 1)).length = 1 := by
  refine ⟨rfl, rfl, rfl, rfl, rfl, rfl, rfl, rfl⟩

/-- The same defect inside the table. Three nodes and the edges `2 → 1`,
`0 → 1`, `0 → 2`: the table is `[0, 0, 2, 3]`, so node 0, which starts two
edges, is given no neighbour, and node 1, which starts none, is given the two
neighbours of node 0. -/
theorem neighboors_shifted_after_gap :
    (ImportEdges
      (ImportNodeData (fresh : Network ℚ)
        [⟨"A", "a", 0, 0, 0⟩, ⟨"B", "b", 0, 0, 0⟩, ⟨"C", "c", 0, 0, 0⟩])
      [Edge.ctor 2 1, Edge.ctor 0 1, Edge.ctor 0 2] (fun _ _ _ => 0)).m_EdgesNodeLUT
        = [0, 0, 2, 3] ∧
    (Neighboors (ImportEdges
      (ImportNodeData (fresh : Network ℚ)
        [⟨"A", "a", 0, 0, 0⟩, ⟨"B", "b", 0, 0, 0⟩, ⟨"C", "c", 0, 0, 0⟩])
      [Edge.ctor 2 1, Edge.ctor 0 1, Edge.ctor 0 2] (fun _ _ _ => 0)) 0).map Size
        = some 0 ∧
    (Neighboors (ImportEdges
      (ImportNodeData (fresh : Network ℚ)
        [⟨"A", "a", 0, 0, 0⟩, ⟨"B", "b", 0, 0, 0⟩, ⟨"C", "c", 0, 0, 0⟩])
      [Edge.ctor 2 1, Edge.ctor 0 1, Edge.ctor 0 2] (fun _ _ _ => 0)) 1).map Size
        = some 2 := by
  refine ⟨rfl, rfl, rfl⟩

/-- C15. For every network whose id index is consistent and every node with id
`s`, after `CreateNode` the call `GetNodeId(s)` returns the previous number of
nodes, `GetNodeData(s)` returns a node whose `Id()` is `s` (the new node), for
every id `t` other than `s` both `GetNodeId(t)` and `GetNodeData(t)` return or
throw what they did before, and the id index is still consistent. -/
theorem CreateNode_index (net : Network F) (node : NodeData F) (hcons : Consistent net) :
    (CreateNode net node).1 = node ∧
    GetNodeId (CreateNode net node).2 node.Id = .ok net.m_NodeData.length ∧
    (CreateNode net node).2.m_NodeData[net.m_NodeData.length]? = some node ∧
    GetNodeDataById (CreateNode net node).2 node.Id = .ok node ∧
    (∀ t, t ≠ node.Id →
      GetNodeId (CreateNode net node).2 t = GetNodeId net t ∧
      GetNodeDataById (CreateNode net node).2 t = GetNodeDataById net t) ∧
    Consistent (CreateNode net node).2 := by
  have hlast : (net.m_NodeData ++ [node])[net.m_NodeData.length]? = some node :=
    List.getElem?_concat_length _ _
  have hid : GetNodeId (CreateNode net node).2 node.Id = .ok net.m_NodeData.length := by
    simp [GetNodeId, CreateNode_m_IdNodeIndex]
  have hdata : GetNodeData (CreateNode net node).2 net.m_NodeData.length = .ok node := by
    simp [GetNodeData, CreateNode_m_NodeData, hlast]
  refine ⟨rfl, hid, hlast, ?_, ?_, ?_⟩
  · simp only [GetNodeDataById, hid, bind, Except.bind]
    exact hdata
  · intro t ht
    have hidt : GetNodeId (CreateNode net node).2 t = GetNodeId net t := by
      simp [GetNodeId, CreateNode_m_IdNodeIndex, Function.update_noteq ht]
    refine ⟨hidt, ?_⟩
    simp only [GetNodeDataById, hidt]
    cases hlook : net.m_IdNodeIndex t with
    | none => simp [GetNodeId, hlook, bind, Except.bind]
    | some idx =>
        obtain ⟨nd, hnd, _⟩ := hcons t idx hlook
        have hlt : idx < net.m_NodeData.length := (List.getElem?_eq_some.1 hnd).1
        have hsame : (net.m_NodeData ++ [node])[idx]? = net.m_NodeData[idx]? :=
          List.getElem?_append_left hlt
        simp [GetNodeId, hlook, bind, Except.bind, GetNodeData, CreateNode_m_NodeData, hsame]
  · intro id idx hlook
    rw [CreateNode_m_IdNodeIndex] at hlook
    rw [CreateNode_m_NodeData]
    by_cases hid2 : id = node.Id
    · subst hid2
      rw [Function.update_same] at hlook
      injection hlook with hlook
      subst hlook
      exact ⟨node, hlast, rfl⟩
    · rw [Function.update_noteq hid2] at hlook
      obtain ⟨nd, hnd, hndid⟩ := hcons id idx hlook
      have hlt : idx < net.m_NodeData.length := (List.getElem?_eq_some.1 hnd).1
      refine ⟨nd, ?_, hndid⟩
      rw [List.getElem?_append_left hlt]
      exact hnd

/-- C15, witness: the network holding the node "A", to which the node "B" is
added. -/
theorem CreateNode_index_witness :
    Consistent (CreateNode (fresh : Network ℚ) ⟨"A", "a", 0, 0, 0⟩).2 ∧
    GetNodeId
      (CreateNode (CreateNode (fresh : Network ℚ) ⟨"A", "a", 0, 0, 0⟩).2
        ⟨"B", "b", 0, 0, 0⟩).2 "B" = .ok 1 ∧
    GetNodeId
      (CreateNode (CreateNode (fresh : Network ℚ) ⟨"A", "a", 0, 0, 0⟩).2
        ⟨"B", "b", 0, 0, 0⟩).2 "A" = .ok 0 := by
  have hfresh : Consistent (fresh : Network ℚ) := by
    intro id idx h
    simp [fresh] at h
  have h1 := CreateNode_index (fresh : Network ℚ) ⟨"A", "a", 0, 0, 0⟩ hfresh
  have hcons := h1.2.2.2.2.2
  have h2 := CreateNode_index (CreateNode (fresh : Network ℚ) ⟨"A", "a", 0, 0, 0⟩).2
    ⟨"B", "b", 0, 0, 0⟩ hcons
  refine ⟨hcons, h2.2.1, ?_⟩
  rw [(h2.2.2.2.2.1 "A" (by decide)).1]
  exact h1.2.1

end NetworkClaims

end Network

end TanNetwork
